import Mathlib

set_option maxRecDepth 100000

/-!
Verification development for the dhcpmon2 repository.

The Go sources are shallowly embedded over `List Char` strings:
`internal/mac/database.go` (vendor lookup), `internal/dhcp/parser.go`
(lease and static-config parsing), `pkg/models/static.go` (static entry
model, validation and serialization), `internal/static/manager.go`
(the static store) and `internal/monitor/monitor.go` (snapshot reloads).
Machine integers are modeled as `Int`/`Nat`; file I/O is modeled by
passing read results explicitly.
-/

namespace Dhcpmon

/-- Go strings are modeled as lists of characters. -/
abbrev Str := List Char

/-- Characters recognized by Go `unicode.IsSpace` (Latin-1 range). -/
def goIsSpace (c : Char) : Bool :=
  c = ' ' || c = '\t' || c = '\n' || c = (Char.ofNat 11) || c = (Char.ofNat 12) ||
  c = '\r' || c = (Char.ofNat 0x85) || c = (Char.ofNat 0xA0)

/-- ASCII uppercasing of one character, as in Go `strings.ToUpper` on ASCII input. -/
def upChar (c : Char) : Char :=
  if 'a' ≤ c ∧ c ≤ 'z' then Char.ofNat (c.toNat - 32) else c

/-- ASCII lowercasing of one character, as in Go `strings.ToLower` on ASCII input. -/
def lowChar (c : Char) : Char :=
  if 'A' ≤ c ∧ c ≤ 'Z' then Char.ofNat (c.toNat + 32) else c

/-- Go `strings.ToUpper` (ASCII fragment). -/
def toUpperStr (s : Str) : Str := s.map upChar

/-- Go `strings.ToLower` (ASCII fragment). -/
def toLowerStr (s : Str) : Str := s.map lowChar

/-- Go `strings.TrimSpace` (leading part). -/
def trimLeftSpace (s : Str) : Str := s.dropWhile (fun c => goIsSpace c)

/-- Go `strings.TrimRightFunc(s, unicode.IsSpace)`. -/
def trimRightSpace (s : Str) : Str := (trimLeftSpace s.reverse).reverse

/-- Go `strings.TrimSpace`. -/
def trimSpace (s : Str) : Str := trimRightSpace (trimLeftSpace s)

/-- Go `strings.Split(s, sep)` for a one-character separator: splits at every
occurrence, keeping empty parts. -/
def splitOnChar (sep : Char) : Str → List Str
  | [] => [[]]
  | c :: rest =>
    if c = sep then [] :: splitOnChar sep rest
    else
      match splitOnChar sep rest with
      | [] => [[c]]
      | s :: ss => (c :: s) :: ss

/-- Go `strings.Fields`: splits around runs of whitespace, dropping empties. -/
def fieldsFn (s : Str) : List Str :=
  let r := s.foldr
    (fun c (acc : Str × List Str) =>
      if goIsSpace c then ([], if acc.1 = [] then acc.2 else acc.1 :: acc.2)
      else (c :: acc.1, acc.2))
    ([], [])
  if r.1 = [] then r.2 else r.1 :: r.2

/-- Go `strings.IndexAny(s, chars)`: index of the first character of `s`
belonging to `chars` (`none` for Go's `-1`). -/
def indexAny (chars : Str) : Str → Option Nat
  | [] => none
  | c :: rest =>
    if c ∈ chars then some 0 else (indexAny chars rest).map (· + 1)

/-- Go `strings.HasPrefix`. -/
def startsWith : Str → Str → Bool
  | [], _ => true
  | _ :: _, [] => false
  | a :: p, b :: s => a = b && startsWith p s

/-- Go `strings.Contains(s, c)` for a single character. -/
def containsChar (c : Char) (s : Str) : Bool := s.contains c

/-- Go `strings.Join(parts, sep)`. -/
def joinSep (sep : Str) : List Str → Str
  | [] => []
  | [p] => p
  | p :: ps => p ++ sep ++ joinSep sep ps

/-- Decimal rendering of a natural number, as in Go `fmt`/`strconv`. -/
def natToStr (n : Nat) : Str := Nat.toDigits 10 n

/-- Decimal rendering of an integer, as in Go `fmt.Sprintf("%d", _)`. -/
def intToStr (n : Int) : Str :=
  if n < 0 then '-' :: natToStr n.natAbs else natToStr n.natAbs

/-- Go `strconv.ParseInt(s, 10, 64)`: optional sign, decimal digits,
64-bit range check. -/
def parseInt64 (s : Str) : Option Int :=
  let (neg, ds) : Bool × Str :=
    match s with
    | '+' :: r => (false, r)
    | '-' :: r => (true, r)
    | r => (false, r)
  if ds = [] then none
  else if ds.all (fun c => c.isDigit) then
    let v : Nat := ds.foldl (fun a c => a * 10 + (c.toNat - 48)) 0
    let i : Int := if neg then -(v : Int) else (v : Int)
    if -(2 ^ 63) ≤ i ∧ i ≤ 2 ^ 63 - 1 then some i else none
  else none

/-- Value of one hexadecimal digit (Go `net` package `xtoi`). -/
def hexVal (c : Char) : Option Nat :=
  if '0' ≤ c ∧ c ≤ '9' then some (c.toNat - 48)
  else if 'a' ≤ c ∧ c ≤ 'f' then some (c.toNat - 97 + 10)
  else if 'A' ≤ c ∧ c ≤ 'F' then some (c.toNat - 65 + 10)
  else none

/-- Lowercase hexadecimal digit characters used by Go `net`. -/
def hexDigitLower (n : Nat) : Char :=
  if n < 10 then Char.ofNat (48 + n) else Char.ofNat (97 + (n - 10))

/-- A Go `net.IP` value: either a 4-byte IPv4 address or a 16-byte IPv6
address (byte list of length 16). -/
inductive IPAddr where
  | v4 (a b c d : Nat)
  | v6 (bytes : List Nat)
deriving DecidableEq

/-- One dotted-decimal field of an IPv4 address, per Go (1.17+) `net.ParseIP`:
1 to 3 digits, no leading zero, value at most 255. -/
def parseDecOctet (s : Str) : Option Nat :=
  if s = [] then none
  else if !s.all (fun c => c.isDigit) then none
  else if 3 < s.length then none
  else if 1 < s.length ∧ s.head? = some '0' then none
  else
    let v := s.foldl (fun a c => a * 10 + (c.toNat - 48)) 0
    if v ≤ 255 then some v else none

/-- Go `net.ParseIP`, IPv4 branch: exactly four valid dotted-decimal fields. -/
def parseIPv4 (s : Str) : Option IPAddr :=
  match (splitOnChar '.' s).map parseDecOctet with
  | [some a, some b, some c, some d] => some (.v4 a b c d)
  | _ => none

/-- Two bytes of one 16-bit IPv6 group value. -/
def groupBytes (acc : Nat) : List Nat := [acc / 256, acc % 256]

/-- Helper for the IPv6 branch of Go `net.ParseIP`: consumes up to four hex
digits, returning the group value and the rest of the string. -/
def takeHexGroup : Str → Nat → Nat → Option (Nat × Str)
  | [], 0, _ => none
  | [], _, acc => some (acc, [])
  | c :: rest, off, acc =>
    match hexVal c with
    | some d =>
      if acc * 16 + d > 0xFFFF then none
      else takeHexGroup rest (off + 1) (acc * 16 + d)
    | none => if off = 0 then none else some (acc, c :: rest)

/-- Go `net.ParseIP`, IPv6 branch: hex groups separated by `:`, one optional
`::` run, optional trailing embedded IPv4, zones rejected. The fuel argument
bounds recursion; callers pass the string length. -/
def parseIPv6Loop (fuel : Nat) (s : Str) (i : Nat) (ellipsis : Option Nat)
    (acc : List Nat) : Option (List Nat × Option Nat) :=
  match fuel with
  | 0 => none
  | fuel + 1 =>
    if i < 16 then
      match takeHexGroup s 0 0 with
      | none => none
      | some (g, rest) =>
        match rest with
        | '.' :: _ =>
          -- embedded IPv4 covers the final four bytes
          if (ellipsis = none ∧ i ≠ 12) ∨ i + 4 > 16 then none
          else
            match parseIPv4 s with
            | some (.v4 a b c d) => some (acc ++ [a, b, c, d], ellipsis)
            | _ => none
        | [] => some (acc ++ groupBytes g, ellipsis)
        | ':' :: [] => none
        | ':' :: ':' :: restTail =>
          if ellipsis ≠ none then none
          else if restTail = [] then some (acc ++ groupBytes g, some (i + 2))
          else parseIPv6Loop fuel restTail (i + 2) (some (i + 2)) (acc ++ groupBytes g)
        | ':' :: restTail =>
          parseIPv6Loop fuel restTail (i + 2) ellipsis (acc ++ groupBytes g)
        | _ => none
    else if s = [] then some (acc, ellipsis) else none

/-- Go `net.ParseIP`, IPv6 branch entry point. -/
def parseIPv6 (s : Str) : Option IPAddr :=
  if s.contains '%' then none
  else
    let core : Option (List Nat × Option Nat) :=
      match s with
      | ':' :: ':' :: rest =>
        if rest = [] then some ([], some 0)
        else parseIPv6Loop (rest.length + 1) rest 0 (some 0) []
      | _ => parseIPv6Loop (s.length + 1) s 0 none []
    match core with
    | none => none
    | some (bytes, ellipsis) =>
      if bytes.length < 16 then
        match ellipsis with
        | none => none
        | some e =>
          let pad := List.replicate (16 - bytes.length) 0
          some (.v6 (bytes.take e ++ pad ++ bytes.drop e))
      else if bytes.length = 16 then
        if ellipsis = none then some (.v6 bytes) else none
      else none

/-- Go `net.ParseIP`: dispatches on the first `.` or `:` encountered. -/
def parseIP (s : Str) : Option IPAddr :=
  match s.find? (fun c => c = '.' ∨ c = ':') with
  | some '.' => parseIPv4 s
  | some ':' => parseIPv6 s
  | _ => none

/-- Go `net.IP.To4` as a quadruple: IPv4 values directly, 16-byte values only
when in IPv4-in-IPv6 form. -/
def ipTo4 : IPAddr → Option (Nat × Nat × Nat × Nat)
  | .v4 a b c d => some (a, b, c, d)
  | .v6 bytes =>
    match bytes with
    | [0, 0, 0, 0, 0, 0, 0, 0, 0, 0, 255, 255, a, b, c, d] => some (a, b, c, d)
    | _ => none

/-- Go `net.IP.Equal`: bytewise on equal lengths, IPv4-in-IPv6 aware otherwise. -/
def ipEq (x y : IPAddr) : Bool :=
  match ipTo4 x, ipTo4 y with
  | some q1, some q2 => q1 = q2
  | none, none => x = y
  | _, _ => false

/-- Dotted-decimal rendering of an IPv4 quadruple. -/
def v4String (a b c d : Nat) : Str :=
  natToStr a ++ '.' :: natToStr b ++ '.' :: natToStr c ++ '.' :: natToStr d

/-- Lowercase hexadecimal rendering of a group value, per Go `appendHex`
(no leading zeros, `0` for zero). -/
def hexGroupStr (n : Nat) : Str :=
  if n = 0 then ['0']
  else
    (List.range 4).foldl
      (fun acc j =>
        let d := (n >>> (4 * (3 - j))) % 16
        if acc = [] ∧ d = 0 then acc else acc ++ [hexDigitLower d])
      []

/-- The 16-bit group values of a 16-byte IPv6 address. -/
def v6Groups : List Nat → List Nat
  | hi :: lo :: rest => (hi * 256 + lo) :: v6Groups rest
  | _ => []

/-- Best zero run to elide per Go `net.IP.String`: the leftmost longest run of
zero groups, only when at least two groups long. -/
def bestZeroRun (gs : List Nat) : Option (Nat × Nat) :=
  let runs := (List.range gs.length).filterMap (fun i =>
    let len := ((gs.drop i).takeWhile (fun g => g = 0)).length
    if 2 ≤ len then some (i, len) else none)
  runs.foldl
    (fun best r =>
      match best with
      | none => some r
      | some b => if b.2 < r.2 then some r else some b)
    none

/-- Go `net.IP.String`: dotted decimal for IPv4 (including IPv4-in-IPv6),
RFC 5952 style hexadecimal otherwise. -/
def ipString (ip : IPAddr) : Str :=
  match ipTo4 ip with
  | some (a, b, c, d) => v4String a b c d
  | none =>
    match ip with
    | .v4 a b c d => v4String a b c d
    | .v6 bytes =>
      let gs := v6Groups bytes
      match bestZeroRun gs with
      | none => joinSep [':'] (gs.map hexGroupStr)
      | some (i, len) =>
        joinSep [':'] ((gs.take i).map hexGroupStr) ++ ':' :: ':' ::
          joinSep [':'] ((gs.drop (i + len)).map hexGroupStr)

/-- Collect the results of a partial function over a list, failing if any
element fails (the per-group accumulation loop of Go `net.ParseMAC`). -/
def collectSome (f : α → Option β) : List α → Option (List β)
  | [] => some []
  | p :: ps =>
    match f p, collectSome f ps with
    | some b, some bs => some (b :: bs)
    | _, _ => none

/-- Two hex digits as one byte (Go `net` `xtoi2` without the separator check,
which is enforced by splitting). -/
def hexPairByte (p : Str) : Option Nat :=
  match p with
  | [h, l] =>
    match hexVal h, hexVal l with
    | some a, some b => some (a * 16 + b)
    | _, _ => none
  | _ => none

/-- Four hex digits as two bytes (dotted MAC form). -/
def hexQuadBytes (p : Str) : Option (List Nat) :=
  match p with
  | [a, b, c, d] =>
    match hexPairByte [a, b], hexPairByte [c, d] with
    | some x, some y => some [x, y]
    | _, _ => none
  | _ => none

/-- Go `net.ParseMAC`: `xx:xx:...`/`xx-xx-...` of 6, 8 or 20 bytes, or
`xxxx.xxxx....` groups. Splitting on the separator at position 2 (resp. 4)
and requiring fixed-width hex parts is equivalent to Go's positional scan. -/
def parseMAC (s : Str) : Option (List Nat) :=
  if s.length < 14 then none
  else if s.get? 2 = some ':' ∨ s.get? 2 = some '-' then
    let sep : Char := if s.get? 2 = some ':' then ':' else '-'
    if (s.length + 1) % 3 ≠ 0 then none
    else
      let n := (s.length + 1) / 3
      if n ≠ 6 ∧ n ≠ 8 ∧ n ≠ 20 then none
      else collectSome hexPairByte (splitOnChar sep s)
  else if s.get? 4 = some '.' then
    if (s.length + 1) % 5 ≠ 0 then none
    else
      let n := 2 * ((s.length + 1) / 5)
      if n ≠ 6 ∧ n ≠ 8 ∧ n ≠ 20 then none
      else (collectSome hexQuadBytes (splitOnChar '.' s)).map List.flatten
  else none

/-- Go `net.HardwareAddr.String`: lowercase colon-separated hex pairs, empty
for a nil address. -/
def macString (m : List Nat) : Str :=
  joinSep [':'] (m.map (fun b => [hexDigitLower (b / 16), hexDigitLower (b % 16)]))

/-- `MAC.String()` through an optional (possibly nil) hardware address. -/
def macStrOpt : Option (List Nat) → Str
  | none => []
  | some m => macString m

/-! ## internal/mac/database.go -/

/-- `models.OUIEntry`: MAC vendor information. Absent JSON fields keep Go
zero values. -/
structure OUIEntry where
  oui : Str := []
  isPrivate : Bool := false
  company : Str := []
  address : Str := []
  countryCode : Str := []
  blockSize : Str := []
  created : Str := []
  updated : Str := []
deriving DecidableEq

/-- The `UNKNOWN` sentinel installed by `initializeDefaults`. -/
def unknownEntry : OUIEntry :=
  { oui := "00:00:00:00:00:00".data, isPrivate := false,
    company := "UNKNOWN".data, address := "UNKNOWN".data }

/-- The shared private-MAC sentinel installed by `initializeDefaults`. -/
def privateMAC : OUIEntry :=
  { isPrivate := true, company := "Local/Privacy MAC".data, address := "UNKNOWN".data }

/-- The Go `map[string]*models.OUIEntry` cache, modeled as an association
list; insertion prepends, lookup takes the first hit. -/
abbrev Cache := List (Str × OUIEntry)

/-- Map read `m[k]`. -/
def cacheFind (m : Cache) (k : Str) : Option OUIEntry :=
  (m.find? (fun p => p.1 = k)).map (·.2)

/-- Map write `m[k] = v`. -/
def cacheInsert (k : Str) (v : OUIEntry) (m : Cache) : Cache := (k, v) :: m

/-- `Database.initializeDefaults`: the sentinel cache entries. The four
`PRIVATE-*` keys all map to the one shared `privateMAC` value. -/
def initializeDefaults : Cache :=
  [("UNKNOWN".data, unknownEntry), ("PRIVATE-2".data, privateMAC),
   ("PRIVATE-6".data, privateMAC), ("PRIVATE-A".data, privateMAC),
   ("PRIVATE-E".data, privateMAC)]

/-- `mac.Database`: cache, backing-store file (modeled as its well-formed
JSON records in order; malformed lines are skipped by Go and so never
appear), and the preloaded flag. -/
structure Database where
  cache : Cache
  fileEntries : List OUIEntry
  preloaded : Bool
deriving DecidableEq

/-- The success value of an `Except`, if any (used to state results of
fallible operations decidably). -/
def okValue : Except ε α → Option α
  | .ok a => some a
  | .error _ => none

/-- `Database.preloadDatabase`: insert every file record under its
uppercased OUI. -/
def preloadDatabase (file : List OUIEntry) (c : Cache) : Cache :=
  file.foldl (fun acc e => cacheInsert (toUpperStr e.oui) e acc) c

/-- `mac.NewDatabase` (the path is assumed readable; an unreadable path
fails construction and produces no database at all). -/
def newDatabase (file : List OUIEntry) (preload : Bool) : Database :=
  if preload then
    { cache := preloadDatabase file initializeDefaults, fileEntries := file, preloaded := true }
  else
    { cache := initializeDefaults, fileEntries := file, preloaded := false }

/-- The cache probe loop of `Database.Lookup`: try `mac[0:i]` for `i` from
the given length down to `0`, first hit wins. -/
def tryCachePrefixes (c : Cache) (mac : Str) : Nat → Option OUIEntry
  | 0 => cacheFind c (mac.take 0)
  | i + 1 =>
    match cacheFind c (mac.take (i + 1)) with
    | some e => some e
    | none => tryCachePrefixes c mac i

/-- The private-MAC switch of `Database.Lookup` on the second character. -/
def privateKeyFor (mac : Str) : Option Str :=
  if 1 < mac.length then
    match mac.get? 1 with
    | some c =>
      if c = '2' then some "PRIVATE-2".data
      else if c = '6' then some "PRIVATE-6".data
      else if c = 'A' then some "PRIVATE-A".data
      else if c = 'E' then some "PRIVATE-E".data
      else none
    | none => none
  else none

/-- The scan loop of `Database.searchFile`: the first backing-store record
whose uppercased OUI is a prefix of the (already uppercased) input. This is
only the value the loop computes; the locking behaviour of the full
function — which takes `db.mu.Lock()` on a hit and therefore never returns
when run under the caller's read lock — is carried by `searchFileRun`. -/
def searchFile (file : List OUIEntry) (mac : Str) : Option OUIEntry :=
  file.find? (fun e => startsWith (toUpperStr e.oui) mac)

/-- Outcome of running code under the database's `sync.RWMutex` `mu`:
either a normal return, or a call that blocks forever on a lock
acquisition and never returns. Go's `sync.RWMutex` is not reentrant:
`Lock()` waits until every read hold is released, so a goroutine calling
`Lock()` while itself holding `RLock()` blocks permanently. -/
inductive MutexRun (α : Type) where
  | ret : α → MutexRun α
  | blocked : MutexRun α
deriving DecidableEq

/-- `Database.searchFile` with its locking explicit. The scan itself takes
no lock, but on the first matching record the Go code takes `db.mu.Lock()`
to insert the record into the cache before returning it. `readHeld` says
whether the calling goroutine already holds `db.mu.RLock()`; when it does,
that `Lock()` never succeeds and the call never returns. -/
def searchFileRun (readHeld : Bool) (db : Database) (mac : Str) :
    MutexRun (Option OUIEntry × Database) :=
  match searchFile db.fileEntries mac with
  | some e =>
    if readHeld then .blocked
    else .ret (some e, { db with cache := cacheInsert (toUpperStr e.oui) e db.cache })
  | none => .ret (none, db)

/-- `Database.Lookup`, value model: the record the cache probe, private
switch or store scan selects, paired with the possibly cache-extended
database. The real function takes `db.mu.RLock()` on entry and releases it
only on return, so on the store-hit path — where `searchFile` takes the
write lock of the same mutex — it in fact never returns; `lookupRun` below
is the faithful locking model, of which this function is the returned value
on the paths that do return. -/
def lookup (db : Database) (mac : Str) : Option OUIEntry × Database :=
  let mac' := toUpperStr mac
  match tryCachePrefixes db.cache mac' mac'.length with
  | some e => (some e, db)
  | none =>
    match privateKeyFor mac' with
    | some key => (cacheFind db.cache key, db)
    | none =>
      if !db.preloaded then
        match searchFile db.fileEntries mac' with
        | some e => (some e, { db with cache := cacheInsert (toUpperStr e.oui) e db.cache })
        | none => (cacheFind db.cache "UNKNOWN".data, db)
      else (cacheFind db.cache "UNKNOWN".data, db)

/-- `Database.Lookup` with its locking explicit: `db.mu.RLock()` is taken on
entry and released only on return (`defer db.mu.RUnlock()`), so the
`searchFile` call on the un-preloaded fallback path runs with the read lock
held; when that scan hits, `searchFile` blocks forever taking `db.mu.Lock()`
and the Lookup call never returns. -/
def lookupRun (db : Database) (mac : Str) : MutexRun (Option OUIEntry × Database) :=
  let mac' := toUpperStr mac
  match tryCachePrefixes db.cache mac' mac'.length with
  | some e => .ret (some e, db)
  | none =>
    match privateKeyFor mac' with
    | some key => .ret (cacheFind db.cache key, db)
    | none =>
      if !db.preloaded then
        match searchFileRun true db mac' with
        | .blocked => .blocked
        | .ret (some e, db') => .ret (some e, db')
        | .ret (none, db') => .ret (cacheFind db'.cache "UNKNOWN".data, db')
      else .ret (cacheFind db.cache "UNKNOWN".data, db)

/-! ## internal/dhcp/parser.go -/

/-- Nanoseconds per second (`time.Duration` values are nanosecond counts). -/
def nsPerSec : Int := 1000000000

/-- `time.Hour * 24 * 365 * 10` in nanoseconds. -/
def tenYearsNs : Int := 87600 * 3600 * nsPerSec

/-- Ten years in seconds, for the synthetic static-lease expiry. -/
def tenYearsSec : Int := 87600 * 3600

/-- `models.DHCPLease`. `expire` is `none` for the Go zero `time.Time`;
`remain` is a duration in nanoseconds. -/
structure DHCPLease where
  expire : Option Int := none
  remain : Int := 0
  mac : Option (List Nat) := none
  info : Option OUIEntry := none
  ip : Option IPAddr := none
  name : Str := []
  id : Str := []
  tag : Str := []
  static : Bool := false
deriving DecidableEq

/-- `dhcp.Parser`: the MAC database plus the static-file collaborator.
`staticFile = none` models an empty configured path; otherwise the value is
the outcome of opening and reading the file. -/
structure DhcpParser where
  macDB : Database
  staticFile : Option (Except Unit Str)

/-- `Parser.parseLeaseLine`: builds the lease field by field; fields that
fail to parse are left at their zero values, and the function always
returns a nil error. -/
def parseLeaseLine (db : Database) (now : Int) (fields : List Str) :
    Except Unit (DHCPLease × Database) :=
  let l0 : DHCPLease := {}
  let l1 := match parseInt64 (fields.getD 0 []) with
    | some ts => { l0 with expire := some ts, remain := (ts - now) * nsPerSec }
    | none => l0
  let (l2, db') := match parseMAC (fields.getD 1 []) with
    | some m =>
      let r := lookup db (fields.getD 1 [])
      ({ l1 with mac := some m, info := r.1 }, r.2)
    | none => (l1, db)
  let l3 := { l2 with ip := parseIP (fields.getD 2 []) }
  let l4 := { l3 with name := fields.getD 3 [] }
  let l5 := if 4 < fields.length then { l4 with id := fields.getD 4 [] } else l4
  .ok (l5, db')

/-- The tag-recognition part of the `Parser.parseStaticLine` value loop:
a value containing `:` whose lowercased form splits into exactly
`set`/`tag` and one remainder yields that remainder. -/
def tagHitOf (value : Str) : Option Str :=
  if containsChar ':' value then
    let tagParts := splitOnChar ':' (toLowerStr value)
    if tagParts.length = 2 ∧
        (tagParts.getD 0 [] = "set".data ∨ tagParts.getD 0 [] = "tag".data) then
      some (tagParts.getD 1 [])
    else none
  else none

/-- The value-classification loop body of `Parser.parseStaticLine`:
recognized `set:`/`tag:` values set the tag (lowercased), values parsing as
IP addresses set the IP, and any other bare value sets both name and id. -/
def staticValueStep (l : DHCPLease) (value : Str) : DHCPLease :=
  match tagHitOf value with
  | some t => { l with tag := t }
  | none =>
    match parseIP value with
    | some ip => { l with ip := some ip }
    | none => { l with name := value, id := value }

/-- The comment stripping of `Parser.parseStaticLine` (everything from the
first `#` or `;` on is removed, then trailing whitespace). -/
def stripComment (line : Str) : Str :=
  match indexAny "#;".data line with
  | some idx => trimRightSpace (line.take idx)
  | none => line

/-- `Parser.parseStaticLine`: comment stripping, `dhcp-host=` directive
check, MAC first, shape-classified remaining values, fixed ten-year expiry. -/
def parseStaticLine (db : Database) (now : Int) (line : Str) :
    Except Str DHCPLease × Database :=
  let line := stripComment line
  let parts := splitOnChar '=' line
  if parts.length ≠ 2 ∨ toLowerStr (parts.getD 0 []) ≠ "dhcp-host".data then
    (.error "not a dhcp-host line".data, db)
  else
    let values := splitOnChar ',' (parts.getD 1 [])
    if values.length < 2 then (.error "insufficient values".data, db)
    else
      match parseMAC (values.getD 0 []) with
      | none => (.error "invalid MAC address".data, db)
      | some m =>
        let r := lookup db (values.getD 0 [])
        let base : DHCPLease := { mac := some m, info := r.1, static := true }
        let parsed := (values.drop 1).foldl staticValueStep base
        (.ok { parsed with expire := some (now + tenYearsSec), remain := tenYearsNs }, r.2)

/-- One line of `Parser.parseStaticLeases`: skip blank and `#` lines, skip
lines the static parser rejects, append the rest. -/
def staticLinesStep (now : Int) (acc : Database × List DHCPLease) (rawLine : Str) :
    Database × List DHCPLease :=
  let line := trimSpace rawLine
  if line = [] ∨ startsWith "#".data line then acc
  else
    match parseStaticLine acc.1 now line with
    | (.error _, db') => (db', acc.2)
    | (.ok l, db') => (db', acc.2 ++ [l])

/-- `Parser.parseStaticLeases`: fails only when the file read fails. -/
def parseStaticLeasesFrom (read : Except Unit Str) (db : Database) (now : Int) :
    Except Unit (List DHCPLease × Database) :=
  match read with
  | .error _ => .error ()
  | .ok content =>
    let r := (splitOnChar '\n' content).foldl (staticLinesStep now) (db, [])
    .ok (r.2, r.1)

/-- One line of `Parser.ParseLeases`: trim, drop blanks and lines of fewer
than five fields, otherwise parse and append. -/
def leaseLineStep (now : Int) (acc : Database × List DHCPLease) (rawLine : Str) :
    Database × List DHCPLease :=
  let line := trimSpace rawLine
  if line = [] then acc
  else
    let fs := fieldsFn line
    if fs.length < 5 then acc
    else
      match parseLeaseLine acc.1 now fs with
      | .error _ => acc
      | .ok (l, db') => (db', acc.2 ++ [l])

/-- `Parser.ParseLeases`: per-line parsing of the lease text, then the
static reservations appended when a static file is configured and readable;
the function itself always returns a nil error. -/
def parseLeases (p : DhcpParser) (now : Int) (content : Str) :
    Except Unit (List DHCPLease) × Database :=
  let r := (splitOnChar '\n' content).foldl (leaseLineStep now) (p.macDB, [])
  match p.staticFile with
  | none => (.ok r.2, r.1)
  | some read =>
    match parseStaticLeasesFrom read r.1 now with
    | .error _ => (.ok r.2, r.1)
    | .ok (sl, db') => (.ok (r.2 ++ sl), db')

/-! ## pkg/models/static.go -/

/-- `models.StaticDHCPEntry`. -/
structure StaticDHCPEntry where
  id : Str := []
  mac : Option (List Nat) := none
  ip : Option IPAddr := none
  hostname : Str := []
  tag : Str := []
  leaseTime : Str := []
  comment : Str := []
  enabled : Bool := false
  lineNumber : Nat := 0
  rawLine : Str := []
deriving DecidableEq

/-- `StaticDHCPEntry.GetFormattedMAC`: uppercase colon form, empty for nil. -/
def getFormattedMAC (e : StaticDHCPEntry) : Str :=
  match e.mac with
  | none => []
  | some m => toUpperStr (macString m)

/-- Characters `StaticDHCPEntry.Validate` accepts in hostnames. -/
def hostnameCharOK (c : Char) : Bool :=
  ('a' ≤ c && c ≤ 'z') || ('A' ≤ c && c ≤ 'Z') || ('0' ≤ c && c ≤ '9') ||
  c = '-' || c = '.'

/-- `StaticDHCPEntry.Validate`: `none` means valid, otherwise the error
message. -/
def entryValidate (e : StaticDHCPEntry) : Option Str :=
  match e.mac with
  | none => some "MAC address is required".data
  | some m =>
    if m.length ≠ 6 then some "invalid MAC address length".data
    else if e.ip = none ∧ e.hostname = [] then
      some "either IP address or hostname is required".data
    else if match e.ip with | some p => (ipTo4 p).isNone | none => false then
      some "only IPv4 addresses are supported".data
    else if e.hostname ≠ [] ∧ 253 < e.hostname.length then
      some "hostname too long (max 253 characters)".data
    else if e.hostname ≠ [] ∧ ¬ e.hostname.all hostnameCharOK then
      some "hostname contains invalid characters".data
    else none

/-- `StaticDHCPEntry.ToDnsmasqLine`: disabled entries re-emit their raw
source line commented out; enabled entries emit the directive from MAC,
optional tag, IP, hostname, lease time and comment. -/
def toDnsmasqLine (e : StaticDHCPEntry) : Str :=
  if ¬ e.enabled then "# ".data ++ e.rawLine
  else
    let parts : List Str :=
      (match e.mac with | some _ => [getFormattedMAC e] | none => []) ++
      (if e.tag ≠ [] then ["set:".data ++ e.tag] else []) ++
      (match e.ip with | some ip => [ipString ip] | none => []) ++
      (if e.hostname ≠ [] then [e.hostname] else []) ++
      (if e.leaseTime ≠ [] then [e.leaseTime] else [])
    let line := "dhcp-host=".data ++ joinSep ",".data parts
    if e.comment ≠ [] then line ++ " # ".data ++ e.comment else line

/-! ## internal/static/manager.go

The manager state is its entry list; each operation returns the error (as
an `Option` message, `none` on success) together with the resulting list. -/

/-- `fmt.Errorf("invalid entry: %w", err)`. -/
def invalidEntryMsg (m : Str) : Str := "invalid entry: ".data ++ m

/-- `fmt.Errorf("MAC address %s already exists", ...)`. -/
def macExistsMsg (s : Str) : Str :=
  "MAC address ".data ++ s ++ " already exists".data

/-- `fmt.Errorf("IP address %s already exists", ...)`. -/
def ipExistsMsg (s : Str) : Str :=
  "IP address ".data ++ s ++ " already exists".data

/-- `fmt.Errorf("entry with ID %s not found", id)`. -/
def notFoundMsg (id : Str) : Str :=
  "entry with ID ".data ++ id ++ " not found".data

/-- The duplicate-MAC probe of `Manager.Add`: an existing enabled entry
whose `MAC.String()` equals the candidate's. -/
def macDup (entries : List StaticDHCPEntry) (entry : StaticDHCPEntry) :
    Option StaticDHCPEntry :=
  entries.find? (fun ex => decide (macStrOpt ex.mac = macStrOpt entry.mac) && ex.enabled)

/-- The duplicate-IP probe of `Manager.Add`: an existing enabled entry with
a non-nil IP equal (in the `net.IP.Equal` sense) to the candidate's. -/
def ipDup (entries : List StaticDHCPEntry) (ip : IPAddr) : Option StaticDHCPEntry :=
  entries.find? (fun ex =>
    (match ex.ip with | some exip => ipEq exip ip | none => false) && ex.enabled)

/-- `Manager.Add`. `now` is `time.Now().Unix()`, used for the generated id. -/
def managerAdd (entries : List StaticDHCPEntry) (entry : StaticDHCPEntry)
    (now : Int) : Option Str × List StaticDHCPEntry :=
  match entryValidate entry with
  | some msg => (some (invalidEntryMsg msg), entries)
  | none =>
    if (macDup entries entry).isSome then
      (some (macExistsMsg (macStrOpt entry.mac)), entries)
    else
      match entry.ip with
      | some ip =>
        if (ipDup entries ip).isSome then (some (ipExistsMsg (ipString ip)), entries)
        else
          (none, entries ++
            [{ entry with id := "entry_".data ++ intToStr now,
                          lineNumber := entries.length + 1 }])
      | none =>
        (none, entries ++
          [{ entry with id := "entry_".data ++ intToStr now,
                        lineNumber := entries.length + 1 }])

/-- `Manager.Update`: first entry with the given id is replaced, preserving
its id and line number; duplicate checks skip that index. -/
def managerUpdate (entries : List StaticDHCPEntry) (id : Str)
    (u : StaticDHCPEntry) : Option Str × List StaticDHCPEntry :=
  match entryValidate u with
  | some msg => (some (invalidEntryMsg msg), entries)
  | none =>
    match entries.findIdx? (fun e => decide (e.id = id)) with
    | none => (some (notFoundMsg id), entries)
    | some i =>
      if (entries.enum.find? (fun ji =>
            decide (ji.1 ≠ i) && decide (macStrOpt ji.2.mac = macStrOpt u.mac) &&
            ji.2.enabled)).isSome then
        (some (macExistsMsg (macStrOpt u.mac)), entries)
      else
        match u.ip with
        | some ip =>
          if (entries.enum.find? (fun ji =>
                decide (ji.1 ≠ i) &&
                (match ji.2.ip with | some exip => ipEq exip ip | none => false) &&
                ji.2.enabled)).isSome then
            (some (ipExistsMsg (ipString ip)), entries)
          else
            let orig := entries.getD i {}
            (none, entries.set i { u with id := orig.id, lineNumber := orig.lineNumber })
        | none =>
          let orig := entries.getD i {}
          (none, entries.set i { u with id := orig.id, lineNumber := orig.lineNumber })

/-- `Manager.Delete`: removes the first entry with the given id. -/
def managerDelete (entries : List StaticDHCPEntry) (id : Str) :
    Option Str × List StaticDHCPEntry :=
  match entries.findIdx? (fun e => decide (e.id = id)) with
  | none => (some (notFoundMsg id), entries)
  | some i => (none, entries.eraseIdx i)

/-- `Manager.setEnabled`: flips the enabled flag of the first entry with the
given id; no uniqueness re-check. -/
def managerSetEnabled (entries : List StaticDHCPEntry) (id : Str) (flag : Bool) :
    Option Str × List StaticDHCPEntry :=
  match entries.findIdx? (fun e => decide (e.id = id)) with
  | none => (some (notFoundMsg id), entries)
  | some i => (none, entries.set i { entries.getD i {} with enabled := flag })

/-- `Manager.Enable`. -/
def managerEnable (entries : List StaticDHCPEntry) (id : Str) :
    Option Str × List StaticDHCPEntry :=
  managerSetEnabled entries id true

/-- `Manager.Disable`. -/
def managerDisable (entries : List StaticDHCPEntry) (id : Str) :
    Option Str × List StaticDHCPEntry :=
  managerSetEnabled entries id false

/-- `fmt.Errorf("entry %d: %w", i+1, err)`. -/
def entryPosErrStr (pos : Nat) (msg : Str) : Str :=
  "entry ".data ++ natToStr pos ++ ": ".data ++ msg

/-- `fmt.Errorf("duplicate MAC %s in entries %d and %d", ...)`. -/
def dupMacStr (mac : Str) (a b : Nat) : Str :=
  "duplicate MAC ".data ++ mac ++ " in entries ".data ++ natToStr a ++
  " and ".data ++ natToStr b

/-- `fmt.Errorf("duplicate IP %s in entries %d and %d", ...)`. -/
def dupIpStr (ip : Str) (a b : Nat) : Str :=
  "duplicate IP ".data ++ ip ++ " in entries ".data ++ natToStr a ++
  " and ".data ++ natToStr b

/-- First-occurrence index maps (`macMap`/`ipMap` in `Manager.Validate`),
modeled as association lists with unique keys. -/
def idxFind (m : List (Str × Nat)) (k : Str) : Option Nat :=
  (m.find? (fun p => decide (p.1 = k))).map (·.2)

/-- `entry.IP.String()` as used for the `ipMap` key of `Manager.Validate`. -/
def ipKey (e : StaticDHCPEntry) : Str :=
  match e.ip with
  | some ip => ipString ip
  | none => []

/-- The per-entry validation report of the `Manager.Validate` loop. -/
def perEntryErrs (e : StaticDHCPEntry) (i : Nat) : List Str :=
  match entryValidate e with
  | some msg => [entryPosErrStr (i + 1) msg]
  | none => []

/-- The duplicate-MAC bookkeeping of one `Manager.Validate` iteration:
violations emitted and the updated first-occurrence map. -/
def macDupStep (e : StaticDHCPEntry) (i : Nat) (macMap : List (Str × Nat)) :
    List Str × List (Str × Nat) :=
  if e.enabled = true ∧ e.mac ≠ none then
    match idxFind macMap (macStrOpt e.mac) with
    | some j => ([dupMacStr (macStrOpt e.mac) (j + 1) (i + 1)], macMap)
    | none => ([], macMap ++ [(macStrOpt e.mac, i)])
  else ([], macMap)

/-- The duplicate-IP bookkeeping of one `Manager.Validate` iteration. -/
def ipDupStep (e : StaticDHCPEntry) (i : Nat) (ipMap : List (Str × Nat)) :
    List Str × List (Str × Nat) :=
  if e.enabled = true ∧ e.ip ≠ none then
    match idxFind ipMap (ipKey e) with
    | some j => ([dupIpStr (ipKey e) (j + 1) (i + 1)], ipMap)
    | none => ([], ipMap ++ [(ipKey e, i)])
  else ([], ipMap)

/-- The loop of `Manager.Validate`: per-entry validation failures, then
duplicate MAC and duplicate IP reports among enabled entries, each later
occurrence paired with the recorded first occurrence. -/
def managerValidateGo : List StaticDHCPEntry → Nat → List (Str × Nat) →
    List (Str × Nat) → List Str
  | [], _, _, _ => []
  | e :: rest, i, macMap, ipMap =>
    perEntryErrs e i ++ (macDupStep e i macMap).1 ++ (ipDupStep e i ipMap).1 ++
      managerValidateGo rest (i + 1) (macDupStep e i macMap).2 (ipDupStep e i ipMap).2

/-- `Manager.Validate`: a non-mutating full scan (the embedding is a pure
function of the entry list). -/
def managerValidate (entries : List StaticDHCPEntry) : List Str :=
  managerValidateGo entries 0 [] []

/-- `Manager.Load`: the parse outcome of the configuration file is passed
in; on failure the entry list is untouched, on success it is replaced. -/
def managerLoad (entries : List StaticDHCPEntry)
    (parsed : Except Unit (List StaticDHCPEntry)) :
    Option Str × List StaticDHCPEntry :=
  match parsed with
  | .error _ => (some "failed to load static entries".data, entries)
  | .ok es => (none, es)

/-! ## internal/hosts/parser.go and internal/monitor/monitor.go -/

/-- `models.HostEntry`. -/
structure HostEntry where
  ip : Str := []
  name : Str := []
  aliases : List Str := []
deriving DecidableEq

/-- `hosts.Parser.stripComment`. -/
def hostsStripComment (line : Str) : Str :=
  match indexAny "#;".data line with
  | some idx => trimRightSpace (line.take idx)
  | none => line

/-- `hosts.Parser.ParseHosts`: always returns a nil error; short lines are
dropped. -/
def parseHosts (content : Str) : Except Unit (List HostEntry) :=
  .ok ((splitOnChar '\n' content).foldl
    (fun acc l =>
      let line := hostsStripComment (trimSpace l)
      if line = [] then acc
      else
        let fs := fieldsFn line
        if fs.length < 2 then acc
        else acc ++ [{ ip := fs.getD 0 [], name := fs.getD 1 [],
                       aliases := if 2 < fs.length then fs.drop 2 else [] }])
    [])

/-- The monitor's published snapshots. -/
structure MonitorState where
  dhcpLeases : List DHCPLease := []
  hostEntries : List HostEntry := []
deriving DecidableEq

/-- `Monitor.loadDHCPLeases`: the file read outcome is passed in; a failed
read (or parse) leaves the published snapshot untouched. -/
def loadDHCPLeases (st : MonitorState) (readRes : Except Unit Str)
    (p : DhcpParser) (now : Int) : Option Str × MonitorState :=
  match readRes with
  | .error _ => (some "failed to read leases file".data, st)
  | .ok content =>
    match (parseLeases p now content).1 with
    | .error _ => (some "failed to parse leases".data, st)
    | .ok leases => (none, { st with dhcpLeases := leases })

/-- `Monitor.loadHostEntries`. -/
def loadHostEntries (st : MonitorState) (readRes : Except Unit Str) :
    Option Str × MonitorState :=
  match readRes with
  | .error _ => (some "failed to read hosts file".data, st)
  | .ok content =>
    match parseHosts content with
    | .error _ => (some "failed to parse hosts".data, st)
    | .ok es => (none, { st with hostEntries := es })

/-! ## Auxiliary notions used to state the claims -/

/-- Characters that survive the static-config serialization pipeline
unscathed: not a value separator, not the directive `=`, not a comment
starter, not whitespace. -/
def safeChar (c : Char) : Bool :=
  !(c = ',' || c = '=' || c = '#' || c = ';' || goIsSpace c)

/-- The two uppercase hex characters one MAC byte serializes to. -/
def bytePair (b : Nat) : Str :=
  toUpperStr [hexDigitLower (b / 16), hexDigitLower (b % 16)]

/-- MAC bytes within range. -/
def macBytesOk (m : List Nat) : Bool := m.all (fun b => b < 256)

/-- A tag that the serialization round trip can preserve: empty, or already
lowercase and free of separator, comment and whitespace characters. -/
def tagOk (t : Str) : Bool :=
  decide (t = []) ||
    (decide (toLowerStr t = t) && t.all (fun c => safeChar c && !(c = ':')))

/-- An optional IP in canonical IPv4 representation with in-range bytes. -/
def ipRepOk : Option IPAddr → Bool
  | none => true
  | some (.v4 a b c d) => a < 256 && b < 256 && c < 256 && d < 256
  | some (.v6 _) => false

/-! ## Concrete fixtures used by the claims -/

/-- An empty, non-preloaded MAC database. -/
def db0 : Database := newDatabase [] false

/-- A parser with no static file configured. -/
def pNoStatic : DhcpParser := { macDB := db0, staticFile := none }

/-- The static-config example line of the spec. -/
def c7line : Str := "dhcp-host=AA:BB:CC:DD:EE:FF,set:trusted,192.168.1.50,myhost".data

/-- The record the spec's static-config example line parses to. -/
def c7rec : DHCPLease :=
  { expire := some 315360000, remain := tenYearsNs,
    mac := some [0xAA, 0xBB, 0xCC, 0xDD, 0xEE, 0xFF], info := some privateMAC,
    ip := some (.v4 192 168 1 50), name := "myhost".data, id := "myhost".data,
    tag := "trusted".data, static := true }

/-- The lease-file example line of the spec. -/
def c8line : Str := "1700000000 AA:BB:CC:DD:EE:FF 192.168.1.10 myhost client1".data

/-- The record the spec's lease-file example line parses to (at reference
time 1699999000). -/
def c8rec : DHCPLease :=
  { expire := some 1700000000, remain := 1000 * nsPerSec,
    mac := some [0xAA, 0xBB, 0xCC, 0xDD, 0xEE, 0xFF], info := some privateMAC,
    ip := some (.v4 192 168 1 10), name := "myhost".data, id := "client1".data,
    static := false }

/-- A five-token lease line on which every individual field parser fails. -/
def c10line : Str := "notanumber zz:zz 999.999.999.999 myhost client1".data

/-- The zero-valued record the unparseable-field line yields. -/
def c10rec : DHCPLease := { name := "myhost".data, id := "client1".data }

/-- A valid enabled entry carrying a lease time (round-trip counterexample). -/
def eLease : StaticDHCPEntry :=
  { mac := some [0xAA, 0xBB, 0xCC, 0xDD, 0xEE, 0xFF], hostname := "myhost".data,
    leaseTime := "12h".data, enabled := true }

/-- A valid enabled entry with tag, IP, hostname and comment but no lease
time (round-trip witness). -/
def eRound : StaticDHCPEntry :=
  { mac := some [0xAA, 0xBB, 0xCC, 0xDD, 0xEE, 0x01], ip := some (.v4 192 168 1 50),
    hostname := "myhost".data, tag := "trusted".data, comment := "a note".data,
    enabled := true }

/-- An enabled entry (store-conflict scenarios). -/
def entA : StaticDHCPEntry :=
  { mac := some [1, 2, 3, 4, 5, 6], hostname := "hosta".data, enabled := true }

/-- A disabled entry sharing `entA`'s MAC. -/
def entB : StaticDHCPEntry :=
  { mac := some [1, 2, 3, 4, 5, 6], hostname := "hostb".data, enabled := false }

/-- Three enabled entries sharing one MAC with distinct IPs (duplicate
reporting scenario). -/
def dupE1 : StaticDHCPEntry :=
  { mac := some [0xAA, 0xBB, 0xCC, 0xDD, 0xEE, 0x01], ip := some (.v4 10 0 0 1),
    hostname := "h1".data, enabled := true }

/-- Second entry of the duplicate-MAC triple. -/
def dupE2 : StaticDHCPEntry :=
  { mac := some [0xAA, 0xBB, 0xCC, 0xDD, 0xEE, 0x01], ip := some (.v4 10 0 0 2),
    hostname := "h2".data, enabled := true }

/-- Third entry of the duplicate-MAC triple. -/
def dupE3 : StaticDHCPEntry :=
  { mac := some [0xAA, 0xBB, 0xCC, 0xDD, 0xEE, 0x01], ip := some (.v4 10 0 0 3),
    hostname := "h3".data, enabled := true }

/-- Two enabled entries sharing one IP with distinct MACs (duplicate-IP
reporting scenario). -/
def dupIpE1 : StaticDHCPEntry :=
  { mac := some [0xAA, 0xBB, 0xCC, 0xDD, 0xEE, 0x05], ip := some (.v4 10 0 0 9),
    hostname := "k1".data, enabled := true }

/-- Second entry of the duplicate-IP pair. -/
def dupIpE2 : StaticDHCPEntry :=
  { mac := some [0xAA, 0xBB, 0xCC, 0xDD, 0xEE, 0x06], ip := some (.v4 10 0 0 9),
    hostname := "k2".data, enabled := true }

/-- A backing-store record whose OUI starts with a locally-administered
second hex digit. -/
def vendorA2 : OUIEntry := { oui := "A2:BB".data, company := "SomeVendor".data }

/-- A MAC string matching `vendorA2`'s prefix. -/
def macA2 : Str := "A2:BB:CC:DD:EE:FF".data

/-- A backing-store record with a globally-administered OUI. -/
def vendorA0 : OUIEntry := { oui := "A0:BB".data, company := "RealVendor".data }

/-- A MAC string matching `vendorA0`'s prefix. -/
def macA0 : Str := "a0:bb:cc:dd:ee:ff".data

/-- A short cached prefix. -/
def vShort : OUIEntry := { oui := "A0".data, company := "ShortVendor".data }

/-- A longer cached prefix shadowing `vShort`. -/
def vLong : OUIEntry := { oui := "A0:BB".data, company := "LongVendor".data }

/-- A database whose cache holds both a two-character and a five-character
key for the same leading bytes. -/
def dbTwo : Database :=
  { cache := [("A0".data, vShort), ("A0:BB".data, vLong)], fileEntries := [],
    preloaded := false }

/-- First entry added during one clock second. -/
def addF1 : StaticDHCPEntry :=
  { mac := some [1, 2, 3, 4, 5, 6], hostname := "hosta".data, enabled := true }

/-- Second entry (distinct MAC) added during the same clock second. -/
def addF2 : StaticDHCPEntry :=
  { mac := some [9, 9, 9, 9, 9, 9], hostname := "hostb".data, enabled := true }

/-! ## General helper lemmas -/

theorem splitOnChar_not_mem {sep : Char} {p : Str} (h : sep ∉ p) :
    splitOnChar sep p = [p] := by
  induction p with
  | nil => rfl
  | cons c rest ih =>
    have hc : c ≠ sep := fun hcs => h (hcs ▸ List.mem_cons_self c rest)
    have hrest : sep ∉ rest := fun hm => h (List.mem_cons_of_mem c hm)
    simp [splitOnChar, hc, ih hrest]

theorem splitOnChar_append_sep {sep : Char} {p rest : Str} (h : sep ∉ p) :
    splitOnChar sep (p ++ sep :: rest) = p :: splitOnChar sep rest := by
  induction p with
  | nil => simp [splitOnChar]
  | cons c q ih =>
    have hc : c ≠ sep := fun hcs => h (hcs ▸ List.mem_cons_self c q)
    have hq : sep ∉ q := fun hm => h (List.mem_cons_of_mem c hm)
    have hrec := ih hq
    simp only [List.cons_append, splitOnChar, if_neg hc, List.append_eq, hrec]

theorem joinSep_cons {sep p : Str} {ps : List Str} (h : ps ≠ []) :
    joinSep sep (p :: ps) = p ++ sep ++ joinSep sep ps := by
  cases ps with
  | nil => exact absurd rfl h
  | cons q qs => rfl

theorem split_joinSep {sep : Char} {ps : List Str} (hne : ps ≠ [])
    (h : ∀ p ∈ ps, sep ∉ p) :
    splitOnChar sep (joinSep [sep] ps) = ps := by
  induction ps with
  | nil => exact absurd rfl hne
  | cons p qs ih =>
    cases qs with
    | nil =>
      exact splitOnChar_not_mem (h p (List.mem_cons_self p []))
    | cons q rs =>
      have hjoin : joinSep [sep] (p :: q :: rs) = p ++ sep :: joinSep [sep] (q :: rs) := by
        rw [joinSep_cons (List.cons_ne_nil q rs), List.append_assoc]
        rfl
      rw [hjoin, splitOnChar_append_sep (h p (List.mem_cons_self p _))]
      rw [ih (by simp) (fun r hr => h r (List.mem_cons_of_mem p hr))]

theorem indexAny_eq_none {chars s : Str} (h : ∀ c ∈ s, c ∉ chars) :
    indexAny chars s = none := by
  induction s with
  | nil => rfl
  | cons c rest ih =>
    have hc : c ∉ chars := h c (List.mem_cons_self c rest)
    have := ih (fun d hd => h d (List.mem_cons_of_mem c hd))
    simp [indexAny, hc, this]

theorem indexAny_append {chars xs ys : Str} (h : ∀ c ∈ xs, c ∉ chars) :
    indexAny chars (xs ++ ys) = (indexAny chars ys).map (· + xs.length) := by
  induction xs with
  | nil => simp
  | cons c rest ih =>
    have hc : c ∉ chars := h c (List.mem_cons_self c rest)
    have hrec := ih (fun d hd => h d (List.mem_cons_of_mem c hd))
    simp only [List.cons_append, indexAny, if_neg hc, List.append_eq, hrec,
      Option.map_map, List.length_cons]
    cases indexAny chars ys <;> simp [Function.comp]

theorem trimRightSpace_append_space {ys : Str} :
    trimRightSpace (ys ++ [' ']) = trimRightSpace ys := by
  have hs : goIsSpace ' ' = true := rfl
  simp [trimRightSpace, trimLeftSpace, List.dropWhile_cons, hs]

theorem trimRightSpace_concat_notspace {xs : Str} {c : Char}
    (h : goIsSpace c = false) : trimRightSpace (xs ++ [c]) = xs ++ [c] := by
  simp [trimRightSpace, trimLeftSpace, List.dropWhile_cons, h]

theorem safeChar_iff {c : Char} :
    safeChar c = true ↔
      c ≠ ',' ∧ c ≠ '=' ∧ c ≠ '#' ∧ c ≠ ';' ∧ goIsSpace c = false := by
  simp [safeChar, and_assoc]

theorem bytePair_facts :
    ∀ b < 256, (bytePair b).length = 2 ∧ hexPairByte (bytePair b) = some b ∧
      ∀ c ∈ bytePair b, safeChar c = true ∧ c ≠ ':' := by decide

theorem natToStr_facts :
    ∀ n < 256, parseDecOctet (natToStr n) = some n ∧
      ∀ c ∈ natToStr n, safeChar c = true ∧ c ≠ ':' ∧ c ≠ '.' := by decide

theorem hostnameCharOK_props {c : Char} (h : hostnameCharOK c = true) :
    safeChar c = true ∧ c ≠ ':' := by
  refine ⟨?_, ?_⟩
  · by_contra hsc
    simp only [safeChar, Bool.not_eq_true', Bool.not_eq_false, Bool.or_eq_true,
      decide_eq_true_eq, goIsSpace, or_assoc] at hsc
    rcases hsc with h1 | h1 | h1 | h1 | h1 | h1 | h1 | h1 | h1 | h1 | h1 | h1 <;>
      (subst h1; exact absurd h (by decide))
  · intro h1
    subst h1
    exact absurd h (by decide)

theorem containsChar_iff {c : Char} {s : Str} : containsChar c s = true ↔ c ∈ s := by
  simp [containsChar]

theorem toUpperStr_joinSep_colon (ps : List Str) :
    toUpperStr (joinSep [':'] ps) = joinSep [':'] (ps.map toUpperStr) := by
  induction ps with
  | nil => rfl
  | cons p qs ih =>
    cases qs with
    | nil => rfl
    | cons q rs =>
      rw [joinSep_cons (List.cons_ne_nil q rs), List.map_cons,
        joinSep_cons (show (q :: rs).map toUpperStr ≠ [] by simp)]
      simp only [toUpperStr] at ih ⊢
      rw [List.map_append, List.map_append, ih]
      rfl

theorem getFormattedMAC_eq {e : StaticDHCPEntry} {m : List Nat} (h : e.mac = some m) :
    getFormattedMAC e = joinSep [':'] (m.map bytePair) := by
  simp only [getFormattedMAC, h, macString]
  rw [toUpperStr_joinSep_colon, List.map_map]
  rfl

theorem parseMAC_roundTrip {m : List Nat} (h6 : m.length = 6)
    (hb : macBytesOk m = true) :
    parseMAC (joinSep [':'] (m.map bytePair)) = some m := by
  obtain ⟨b0, b1, b2, b3, b4, b5, rfl⟩ :
      ∃ b0 b1 b2 b3 b4 b5, m = [b0, b1, b2, b3, b4, b5] := by
    rcases m with _ | ⟨b0, m⟩; · simp at h6
    rcases m with _ | ⟨b1, m⟩; · simp at h6
    rcases m with _ | ⟨b2, m⟩; · simp at h6
    rcases m with _ | ⟨b3, m⟩; · simp at h6
    rcases m with _ | ⟨b4, m⟩; · simp at h6
    rcases m with _ | ⟨b5, m⟩; · simp at h6
    rcases m with _ | ⟨b6, m⟩
    · exact ⟨b0, b1, b2, b3, b4, b5, rfl⟩
    · simp at h6
  simp only [macBytesOk, List.all_cons, List.all_nil, Bool.and_eq_true,
    decide_eq_true_eq] at hb
  obtain ⟨h0, h1, h2, h3, h4, h5, -⟩ := hb
  have f0 := bytePair_facts b0 h0
  have f1 := bytePair_facts b1 h1
  have f2 := bytePair_facts b2 h2
  have f3 := bytePair_facts b3 h3
  have f4 := bytePair_facts b4 h4
  have f5 := bytePair_facts b5 h5
  obtain ⟨c0, c1, hbp0⟩ := List.length_eq_two.mp f0.1
  obtain ⟨c2, c3, hbp1⟩ := List.length_eq_two.mp f1.1
  obtain ⟨c4, c5, hbp2⟩ := List.length_eq_two.mp f2.1
  obtain ⟨c6, c7, hbp3⟩ := List.length_eq_two.mp f3.1
  obtain ⟨c8, c9, hbp4⟩ := List.length_eq_two.mp f4.1
  obtain ⟨c10, c11, hbp5⟩ := List.length_eq_two.mp f5.1
  rw [hbp0] at f0; rw [hbp1] at f1; rw [hbp2] at f2
  rw [hbp3] at f3; rw [hbp4] at f4; rw [hbp5] at f5
  have hmem : ∀ (x y : Char) (bv : Nat),
      (∀ c ∈ [x, y], safeChar c = true ∧ c ≠ ':') → ':' ∉ [x, y] := by
    intro x y bv hf hm
    exact (hf ':' hm).2 rfl
  have n0 := hmem c0 c1 b0 f0.2.2
  have n1 := hmem c2 c3 b1 f1.2.2
  have n2 := hmem c4 c5 b2 f2.2.2
  have n3 := hmem c6 c7 b3 f3.2.2
  have n4 := hmem c8 c9 b4 f4.2.2
  have n5 := hmem c10 c11 b5 f5.2.2
  simp only [List.map, hbp0, hbp1, hbp2, hbp3, hbp4, hbp5]
  have hsplit : splitOnChar ':'
      [c0, c1, ':', c2, c3, ':', c4, c5, ':', c6, c7, ':', c8, c9, ':', c10, c11] =
      [[c0, c1], [c2, c3], [c4, c5], [c6, c7], [c8, c9], [c10, c11]] := by
    show splitOnChar ':' ([c0, c1] ++ ':' :: ([c2, c3] ++ ':' :: ([c4, c5] ++ ':' ::
        ([c6, c7] ++ ':' :: ([c8, c9] ++ ':' :: [c10, c11]))))) = _
    rw [splitOnChar_append_sep n0, splitOnChar_append_sep n1, splitOnChar_append_sep n2,
      splitOnChar_append_sep n3, splitOnChar_append_sep n4, splitOnChar_not_mem n5]
  have hmapM : collectSome hexPairByte
      [[c0, c1], [c2, c3], [c4, c5], [c6, c7], [c8, c9], [c10, c11]] =
      some [b0, b1, b2, b3, b4, b5] := by
    simp [collectSome, f0.2.1, f1.2.1, f2.2.1, f3.2.1, f4.2.1, f5.2.1]
  show parseMAC
      [c0, c1, ':', c2, c3, ':', c4, c5, ':', c6, c7, ':', c8, c9, ':', c10, c11] =
      some [b0, b1, b2, b3, b4, b5]
  simp [parseMAC, hsplit, hmapM]

theorem v4String_shape {a b c d : Nat} :
    v4String a b c d =
      natToStr a ++ '.' :: (natToStr b ++ '.' :: (natToStr c ++ '.' :: natToStr d)) := by
  simp [v4String]

theorem splitOnChar_v4String {a b c d : Nat} (ha : a < 256) (hb : b < 256)
    (hc : c < 256) (hd : d < 256) :
    splitOnChar '.' (v4String a b c d) =
      [natToStr a, natToStr b, natToStr c, natToStr d] := by
  have hnd : ∀ (n : Nat), n < 256 → '.' ∉ natToStr n := fun n hn hm =>
    ((natToStr_facts n hn).2 '.' hm).2.2 rfl
  rw [v4String_shape, splitOnChar_append_sep (hnd a ha),
    splitOnChar_append_sep (hnd b hb), splitOnChar_append_sep (hnd c hc),
    splitOnChar_not_mem (hnd d hd)]

theorem parseIPv4_v4String {a b c d : Nat} (ha : a < 256) (hb : b < 256)
    (hc : c < 256) (hd : d < 256) :
    parseIPv4 (v4String a b c d) = some (.v4 a b c d) := by
  simp [parseIPv4, splitOnChar_v4String ha hb hc hd,
    (natToStr_facts a ha).1, (natToStr_facts b hb).1,
    (natToStr_facts c hc).1, (natToStr_facts d hd).1]

theorem parseIP_v4String {a b c d : Nat} (ha : a < 256) (hb : b < 256)
    (hc : c < 256) (hd : d < 256) :
    parseIP (v4String a b c d) = some (.v4 a b c d) := by
  have hfind : (v4String a b c d).find? (fun ch => decide (ch = '.' ∨ ch = ':')) =
      some '.' := by
    rw [v4String_shape, List.find?_append]
    have hnone : (natToStr a).find? (fun ch => decide (ch = '.' ∨ ch = ':')) = none := by
      rw [List.find?_eq_none]
      intro x hx
      have := (natToStr_facts a ha).2 x hx
      simp [this.2.1, this.2.2]
    rw [hnone]
    simp [List.find?_cons]
  simp only [parseIP, hfind]
  exact parseIPv4_v4String ha hb hc hd

theorem staticValueStep_tag {l : DHCPLease} {t : Str} (hlow : toLowerStr t = t)
    (hno : ':' ∉ t) :
    staticValueStep l ("set:".data ++ t) = { l with tag := t } := by
  have hcontains : containsChar ':' ("set:".data ++ t) = true :=
    containsChar_iff.mpr (by simp)
  have hlowAll : toLowerStr ("set:".data ++ t) = "set:".data ++ t := by
    simp only [toLowerStr] at hlow ⊢
    rw [List.map_append, hlow]
    rfl
  have hsplit : splitOnChar ':' ("set:".data ++ t) = ["set".data, t] := by
    show splitOnChar ':' ("set".data ++ ':' :: t) = _
    rw [splitOnChar_append_sep (by decide), splitOnChar_not_mem hno]
  simp only [staticValueStep, tagHitOf, hcontains, hlowAll, hsplit]
  simp

theorem staticValueStep_ip {l : DHCPLease} {a b c d : Nat} (ha : a < 256)
    (hb : b < 256) (hc : c < 256) (hd : d < 256) :
    staticValueStep l (v4String a b c d) = { l with ip := some (.v4 a b c d) } := by
  have hgen : ∀ (n : Nat), n < 256 → ':' ∉ natToStr n := fun n hn hm =>
    ((natToStr_facts n hn).2 ':' hm).2.1 rfl
  have hnc : containsChar ':' (v4String a b c d) = false := by
    rw [← Bool.not_eq_true, containsChar_iff]
    intro hm
    rw [v4String_shape] at hm
    rcases List.mem_append.mp hm with h | h
    · exact hgen a ha h
    rcases List.mem_cons.mp h with h | h
    · exact absurd h (by decide)
    rcases List.mem_append.mp h with h | h
    · exact hgen b hb h
    rcases List.mem_cons.mp h with h | h
    · exact absurd h (by decide)
    rcases List.mem_append.mp h with h | h
    · exact hgen c hc h
    rcases List.mem_cons.mp h with h | h
    · exact absurd h (by decide)
    exact hgen d hd h
  simp [staticValueStep, tagHitOf, hnc, parseIP_v4String ha hb hc hd]

theorem staticValueStep_host {l : DHCPLease} {hst : Str}
    (hchars : ∀ c ∈ hst, hostnameCharOK c = true) (hip : parseIP hst = none) :
    staticValueStep l hst = { l with name := hst, id := hst } := by
  have hnc : containsChar ':' hst = false := by
    rw [← Bool.not_eq_true, containsChar_iff]
    intro hm
    exact (hostnameCharOK_props (hchars ':' hm)).2 rfl
  simp [staticValueStep, tagHitOf, hnc, hip]

theorem tryCachePrefixes_eq_none {c : Cache} {mac : Str} {n : Nat}
    (h : ∀ k < n + 1, cacheFind c (mac.take k) = none) :
    tryCachePrefixes c mac n = none := by
  induction n with
  | zero => exact h 0 (by omega)
  | succ n ih =>
    have h1 : cacheFind c (mac.take (n + 1)) = none := h (n + 1) (by omega)
    simp only [tryCachePrefixes, h1]
    exact ih (fun k hk => h k (by omega))

theorem tryCachePrefixes_hit {c : Cache} {mac : Str} {j n : Nat} {e : OUIEntry}
    (hjn : j ≤ n) (hj : cacheFind c (mac.take j) = some e)
    (habove : ∀ k < n + 1, j < k → cacheFind c (mac.take k) = none) :
    tryCachePrefixes c mac n = some e := by
  induction n with
  | zero =>
    have hj0 : j = 0 := by omega
    subst hj0
    simpa [tryCachePrefixes] using hj
  | succ n ih =>
    by_cases hje : j = n + 1
    · subst hje
      simp only [tryCachePrefixes, hj]
    · have hnone : cacheFind c (mac.take (n + 1)) = none :=
        habove (n + 1) (by omega) (by omega)
      simp only [tryCachePrefixes, hnone]
      exact ih (by omega) (fun k hk hjk => habove k (by omega) hjk)

theorem lookupRun_longest_cached {db : Database} {mac : Str} {j : Nat} {e : OUIEntry}
    (hjn : j ≤ (toUpperStr mac).length)
    (hj : cacheFind db.cache ((toUpperStr mac).take j) = some e)
    (habove : ∀ k < (toUpperStr mac).length + 1, j < k →
      cacheFind db.cache ((toUpperStr mac).take k) = none) :
    lookupRun db mac = MutexRun.ret (some e, db) := by
  simp only [lookupRun, tryCachePrefixes_hit hjn hj habove]

theorem lookupRun_store_blocked {db : Database} {mac : Str} {e : OUIEntry}
    (hpre : db.preloaded = false)
    (hnone : ∀ k < (toUpperStr mac).length + 1,
      cacheFind db.cache ((toUpperStr mac).take k) = none)
    (hpriv : privateKeyFor (toUpperStr mac) = none)
    (hsf : searchFile db.fileEntries (toUpperStr mac) = some e) :
    lookupRun db mac = MutexRun.blocked := by
  simp only [lookupRun, searchFileRun, tryCachePrefixes_eq_none hnone, hpriv, hpre,
    hsf, Bool.not_false, if_true]

theorem cacheFind_take_defaults {mac : Str} {d : Char}
    (h1 : mac.get? 1 = some d)
    (hd : d = '2' ∨ d = '6' ∨ d = 'A' ∨ d = 'E') :
    ∀ k, cacheFind initializeDefaults (mac.take k) = none := by
  intro k
  have keyfact : ∀ (s : Str) (cs : Char), s.get? 1 = some cs → cs ≠ d →
      s ≠ mac.take k := by
    intro s cs hs hcs heq
    have hslen : 1 < s.length := (List.get?_eq_some.mp hs).1
    have hlentake : (mac.take k).length = s.length := by rw [← heq]
    have hmin := List.length_take k mac
    have hk : 1 < k := by omega
    have hget : (mac.take k).get? 1 = mac.get? 1 := List.get?_take hk
    rw [← heq, hs, h1] at hget
    exact hcs (Option.some.inj hget)
  have k1 := keyfact "UNKNOWN".data 'N' rfl
    (by rcases hd with h | h | h | h <;> (subst h; decide))
  have k2 := keyfact "PRIVATE-2".data 'R' rfl
    (by rcases hd with h | h | h | h <;> (subst h; decide))
  have k3 := keyfact "PRIVATE-6".data 'R' rfl
    (by rcases hd with h | h | h | h <;> (subst h; decide))
  have k4 := keyfact "PRIVATE-A".data 'R' rfl
    (by rcases hd with h | h | h | h <;> (subst h; decide))
  have k5 := keyfact "PRIVATE-E".data 'R' rfl
    (by rcases hd with h | h | h | h <;> (subst h; decide))
  simp [cacheFind, initializeDefaults, List.find?, k1, k2, k3, k4, k5]

theorem tagOk_props {t : Str} (h : tagOk t = true) :
    t = [] ∨ (toLowerStr t = t ∧ ∀ c ∈ t, safeChar c = true ∧ c ≠ ':') := by
  simp only [tagOk, Bool.or_eq_true, Bool.and_eq_true, decide_eq_true_eq,
    List.all_eq_true] at h
  rcases h with h | ⟨hlow, hall⟩
  · exact Or.inl h
  · refine Or.inr ⟨hlow, fun c hc => ?_⟩
    have := hall c hc
    simp only [Bool.and_eq_true, Bool.not_eq_true'] at this
    exact ⟨this.1, by simpa using this.2⟩

theorem mem_joinSep {sep : Str} {ps : List Str} {c : Char}
    (h : c ∈ joinSep sep ps) : c ∈ sep ∨ ∃ p ∈ ps, c ∈ p := by
  induction ps with
  | nil => simp [joinSep] at h
  | cons p qs ih =>
    cases qs with
    | nil =>
      exact Or.inr ⟨p, List.mem_cons_self p [], h⟩
    | cons q rs =>
      rw [joinSep_cons (List.cons_ne_nil q rs)] at h
      rcases List.mem_append.mp h with h1 | h1
      · rcases List.mem_append.mp h1 with h2 | h2
        · exact Or.inr ⟨p, List.mem_cons_self p _, h2⟩
        · exact Or.inl h2
      · rcases ih h1 with h2 | ⟨r, hr, hcr⟩
        · exact Or.inl h2
        · exact Or.inr ⟨r, List.mem_cons_of_mem p hr, hcr⟩

theorem trimRightSpace_of_no_space {ys : Str}
    (h : ∀ c ∈ ys, goIsSpace c = false) : trimRightSpace ys = ys := by
  unfold trimRightSpace trimLeftSpace
  have hdw : ys.reverse.dropWhile (fun c => goIsSpace c) = ys.reverse := by
    cases hr : ys.reverse with
    | nil => rfl
    | cons a t =>
      have ha : goIsSpace a = false := by
        refine h a ?_
        rw [← List.mem_reverse, hr]
        exact List.mem_cons_self a t
      simp [List.dropWhile_cons, ha]
  rw [hdw, List.reverse_reverse]

theorem stripComment_no_comment {line : Str}
    (h : ∀ c ∈ line, c ∉ "#;".data) : stripComment line = line := by
  simp [stripComment, indexAny_eq_none h]

theorem stripComment_with_comment {base comment : Str}
    (hhash : ∀ c ∈ base, c ∉ "#;".data)
    (hspace : ∀ c ∈ base, goIsSpace c = false) :
    stripComment (base ++ ' ' :: '#' :: ' ' :: comment) = base := by
  have hidx : indexAny "#;".data (base ++ ' ' :: '#' :: ' ' :: comment) =
      some (1 + base.length) := by
    rw [indexAny_append hhash]
    have : indexAny "#;".data (' ' :: '#' :: ' ' :: comment) = some 1 := by
      simp [indexAny]
    rw [this]
    rfl
  rw [stripComment, hidx]
  have harith : 1 + base.length = base.length + 1 := by omega
  rw [harith]
  show trimRightSpace (List.take (base.length + 1) (base ++ ' ' :: '#' :: ' ' :: comment)) = base
  rw [List.take_append 1]
  show trimRightSpace (base ++ [' ']) = base
  rw [trimRightSpace_append_space, trimRightSpace_of_no_space hspace]

theorem entryValidate_none_facts {e : StaticDHCPEntry} {m : List Nat}
    (hm : e.mac = some m) (h : entryValidate e = none) :
    m.length = 6 ∧ (e.ip ≠ none ∨ e.hostname ≠ []) ∧
      ∀ c ∈ e.hostname, hostnameCharOK c = true := by
  rw [entryValidate, hm] at h
  dsimp only at h
  split_ifs at h with h1 h2 h3 h4 h5
  refine ⟨by omega, ?_, ?_⟩
  · by_cases hip : e.ip = none
    · by_cases hh : e.hostname = []
      · exact absurd ⟨hip, hh⟩ h2
      · exact Or.inr hh
    · exact Or.inl hip
  · by_cases hh : e.hostname = []
    · intro c hc; rw [hh] at hc; simp at hc
    · have hA : e.hostname.all hostnameCharOK = true := by
        by_contra hall
        exact h5 ⟨hh, fun hx => hall hx⟩
      simpa [List.all_eq_true] using hA

theorem entryValidate_none_mac {e : StaticDHCPEntry}
    (h : entryValidate e = none) : e.mac ≠ none := by
  intro hm
  rw [entryValidate, hm] at h
  simp at h

theorem staticValueStep_pres {l : DHCPLease} (v : Str) (h : l.name = l.id) :
    (staticValueStep l v).static = l.static ∧
      (staticValueStep l v).name = (staticValueStep l v).id := by
  unfold staticValueStep
  cases tagHitOf v with
  | some t => simp [h]
  | none => cases parseIP v <;> simp [h]

theorem staticFold_pres : ∀ (vs : List Str) (l : DHCPLease), l.name = l.id →
    ((vs.foldl staticValueStep l).static = l.static ∧
      (vs.foldl staticValueStep l).name = (vs.foldl staticValueStep l).id) := by
  intro vs
  induction vs with
  | nil => intro l h; exact ⟨rfl, h⟩
  | cons v rest ih =>
    intro l h
    have hstep := staticValueStep_pres v h
    have := ih (staticValueStep l v) hstep.2
    simp only [List.foldl_cons]
    exact ⟨this.1.trans hstep.1, this.2⟩

theorem v4String_chars {a b c d : Nat} (ha : a < 256) (hb : b < 256)
    (hc : c < 256) (hd : d < 256) :
    ∀ ch ∈ v4String a b c d, safeChar ch = true ∧ ch ≠ ':' := by
  intro ch hm
  rw [v4String_shape] at hm
  have hdot : safeChar '.' = true ∧ ('.' : Char) ≠ ':' := by decide
  rcases List.mem_append.mp hm with h | h
  · exact ⟨((natToStr_facts a ha).2 ch h).1, ((natToStr_facts a ha).2 ch h).2.1⟩
  rcases List.mem_cons.mp h with h | h
  · subst h; exact hdot
  rcases List.mem_append.mp h with h | h
  · exact ⟨((natToStr_facts b hb).2 ch h).1, ((natToStr_facts b hb).2 ch h).2.1⟩
  rcases List.mem_cons.mp h with h | h
  · subst h; exact hdot
  rcases List.mem_append.mp h with h | h
  · exact ⟨((natToStr_facts c hc).2 ch h).1, ((natToStr_facts c hc).2 ch h).2.1⟩
  rcases List.mem_cons.mp h with h | h
  · subst h; exact hdot
  exact ⟨((natToStr_facts d hd).2 ch h).1, ((natToStr_facts d hd).2 ch h).2.1⟩

theorem parseStaticLine_wellformed {db : Database} {now : Int} {line : Str}
    {macS : Str} {vals : List Str} {m : List Nat}
    (hstrip : stripComment line = "dhcp-host=".data ++ joinSep [','] (macS :: vals))
    (hmac : parseMAC macS = some m)
    (hchars : ∀ p ∈ macS :: vals, ∀ c ∈ p, safeChar c = true)
    (hvne : vals ≠ []) :
    parseStaticLine db now line =
      (.ok { (vals.foldl staticValueStep
          { mac := some m, info := (lookup db macS).1, static := true }) with
          expire := some (now + tenYearsSec), remain := tenYearsNs },
        (lookup db macS).2) := by
  have hbodyEq : '=' ∉ joinSep [','] (macS :: vals) := by
    intro hmem
    rcases mem_joinSep hmem with hsep | ⟨p, hp, hcp⟩
    · exact absurd hsep (by decide)
    · exact (safeChar_iff.mp (hchars p hp '=' hcp)).2.1 rfl
  have hcomma : ∀ p ∈ macS :: vals, ',' ∉ p := fun p hp hcm =>
    (safeChar_iff.mp (hchars p hp ',' hcm)).1 rfl
  have hsplitEq : splitOnChar '=' ("dhcp-host=".data ++ joinSep [','] (macS :: vals)) =
      ["dhcp-host".data, joinSep [','] (macS :: vals)] := by
    show splitOnChar '=' ("dhcp-host".data ++ '=' :: joinSep [','] (macS :: vals)) = _
    rw [splitOnChar_append_sep (by decide), splitOnChar_not_mem hbodyEq]
  have hsplitComma : splitOnChar ',' (joinSep [','] (macS :: vals)) = macS :: vals :=
    split_joinSep (List.cons_ne_nil _ _) hcomma
  have hlowDirective : toLowerStr "dhcp-host".data = "dhcp-host".data := by decide
  have hlen2 : ¬ ((macS :: vals).length < 2) := by
    cases vals with
    | nil => exact absurd rfl hvne
    | cons a l => simp
  unfold parseStaticLine
  rw [hstrip]
  dsimp only
  rw [hsplitEq]
  simp only [List.length_cons, List.length_nil, List.getD_cons_zero, List.getD_cons_succ]
  rw [if_neg (by simp [hlowDirective])]
  rw [hsplitComma]
  simp only [List.length_cons, List.getD_cons_zero, List.drop_succ_cons, List.drop_zero]
  rw [if_neg (by simpa using hlen2), hmac]

theorem dnsmasq_base_chars {macS : Str} {vals : List Str}
    (hchars : ∀ p ∈ macS :: vals, ∀ c ∈ p, safeChar c = true) :
    (∀ c ∈ "dhcp-host=".data ++ joinSep [','] (macS :: vals), c ∉ "#;".data) ∧
    (∀ c ∈ "dhcp-host=".data ++ joinSep [','] (macS :: vals), goIsSpace c = false) := by
  have hhead1 : ∀ c ∈ "dhcp-host=".data, c ∉ "#;".data := by decide
  have hhead2 : ∀ c ∈ "dhcp-host=".data, goIsSpace c = false := by decide
  have hbody : ∀ c ∈ joinSep [','] (macS :: vals), safeChar c = true ∨ c = ',' := by
    intro c h
    rcases mem_joinSep h with hs | ⟨p, hp, hcp⟩
    · right; simpa using hs
    · left; exact hchars p hp c hcp
  refine ⟨fun c hcm => ?_, fun c hcm => ?_⟩
  · rcases List.mem_append.mp hcm with h | h
    · exact hhead1 c h
    · rcases hbody c h with hsafe | hcomma
      · obtain ⟨-, -, h3, h4, -⟩ := safeChar_iff.mp hsafe
        intro hmem
        rcases List.mem_cons.mp hmem with hx | hx
        · exact h3 hx
        · exact h4 (by simpa using hx)
      · subst hcomma; decide
  · rcases List.mem_append.mp hcm with h | h
    · exact hhead2 c h
    · rcases hbody c h with hsafe | hcomma
      · exact (safeChar_iff.mp hsafe).2.2.2.2
      · subst hcomma; decide

theorem stripComment_toDnsmasq {e : StaticDHCPEntry} {base : Str}
    (hbaseHash : ∀ c ∈ base, c ∉ "#;".data)
    (hbaseSpace : ∀ c ∈ base, goIsSpace c = false)
    (hL : toDnsmasqLine e =
      if e.comment ≠ [] then base ++ " # ".data ++ e.comment else base) :
    stripComment (toDnsmasqLine e) = base := by
  rw [hL]
  by_cases hcom : e.comment = []
  · rw [if_neg (by simp [hcom])]
    exact stripComment_no_comment hbaseHash
  · rw [if_pos hcom, List.append_assoc]
    exact stripComment_with_comment hbaseHash hbaseSpace

theorem idxFind_append_some {m : List (Str × Nat)} {s : Str} {f : Nat}
    (h : idxFind m s = some f) (l : List (Str × Nat)) :
    idxFind (m ++ l) s = some f := by
  simp only [idxFind, List.find?_append] at h ⊢
  cases hf : m.find? (fun p => decide (p.1 = s)) with
  | none => rw [hf] at h; simp at h
  | some p => rw [hf] at h; simpa using h

theorem idxFind_append_one {m : List (Str × Nat)} {s k : Str} {v : Nat}
    (h : idxFind m s = none) :
    idxFind (m ++ [(k, v)]) s = if k = s then some v else none := by
  simp only [idxFind, List.find?_append] at h ⊢
  cases hf : m.find? (fun p => decide (p.1 = s)) with
  | none =>
    by_cases hk : k = s <;> simp [List.find?, hk]
  | some p => rw [hf] at h; simp at h

theorem macDupStep_parts (e : StaticDHCPEntry) (i : Nat) (m : List (Str × Nat)) :
    (macDupStep e i m).2 = m ∨
      (macDupStep e i m).2 = m ++ [(macStrOpt e.mac, i)] := by
  unfold macDupStep
  split
  · cases idxFind m (macStrOpt e.mac) <;> simp
  · simp

theorem ipDupStep_parts (e : StaticDHCPEntry) (i : Nat) (m : List (Str × Nat)) :
    (ipDupStep e i m).2 = m ∨ (ipDupStep e i m).2 = m ++ [(ipKey e, i)] := by
  unfold ipDupStep
  split
  · cases idxFind m (ipKey e) <;> simp
  · simp

theorem validateGo_mem_perEntry :
    ∀ (es : List StaticDHCPEntry) (n : Nat) mm im (i : Nat) e msg,
      es.get? i = some e → entryValidate e = some msg →
      entryPosErrStr (n + i + 1) msg ∈ managerValidateGo es n mm im := by
  intro es
  induction es with
  | nil => intro n mm im i e msg hget; simp at hget
  | cons head rest ih =>
    intro n mm im i e msg hget hval
    cases i with
    | zero =>
      have he : head = e := by simpa using hget
      subst he
      simp only [managerValidateGo, perEntryErrs, hval]
      simp
    | succ i =>
      have hget' : rest.get? i = some e := by simpa using hget
      have hmem := ih (n + 1) (macDupStep head n mm).2 (ipDupStep head n im).2
        i e msg hget' hval
      have harith : n + 1 + i + 1 = n + (i + 1) + 1 := by omega
      rw [harith] at hmem
      simp only [managerValidateGo]
      simp [hmem]

theorem validateGo_mem_dupMac_of_map :
    ∀ (es : List StaticDHCPEntry) (n : Nat) mm im {s : Str} {f j : Nat} {e2},
      idxFind mm s = some f →
      es.get? j = some e2 → e2.enabled = true → e2.mac ≠ none →
      macStrOpt e2.mac = s →
      dupMacStr s (f + 1) (n + j + 1) ∈ managerValidateGo es n mm im := by
  intro es
  induction es with
  | nil => intro n mm im s f j e2 _ hget; simp at hget
  | cons head rest ih =>
    intro n mm im s f j e2 hmap hget hen hmac hs
    cases j with
    | zero =>
      have he : head = e2 := by simpa using hget
      subst he
      have hstep : macDupStep head n mm =
          ([dupMacStr s (f + 1) (n + 1)], mm) := by
        unfold macDupStep
        rw [if_pos ⟨hen, hmac⟩, hs, hmap]
      simp only [managerValidateGo, hstep]
      simp
    | succ j =>
      have hget' : rest.get? j = some e2 := by simpa using hget
      have hmap' : idxFind (macDupStep head n mm).2 s = some f := by
        rcases macDupStep_parts head n mm with hp | hp <;> rw [hp]
        · exact hmap
        · exact idxFind_append_some hmap _
      have hmem := ih (n + 1) (macDupStep head n mm).2 (ipDupStep head n im).2
        hmap' hget' hen hmac hs
      have harith : n + 1 + j + 1 = n + (j + 1) + 1 := by omega
      rw [harith] at hmem
      simp only [managerValidateGo]
      simp [hmem]

theorem validateGo_mem_dupMac_first :
    ∀ (es : List StaticDHCPEntry) (n : Nat) mm im {s : Str} {i j : Nat} {e1 e2},
      idxFind mm s = none →
      es.get? i = some e1 → e1.enabled = true → e1.mac ≠ none →
      macStrOpt e1.mac = s →
      es.get? j = some e2 → e2.enabled = true → e2.mac ≠ none →
      macStrOpt e2.mac = s →
      i < j →
      (∀ k < i, ∀ ek, es.get? k = some ek → ek.enabled = true →
        macStrOpt ek.mac ≠ s) →
      dupMacStr s (n + i + 1) (n + j + 1) ∈ managerValidateGo es n mm im := by
  intro es
  induction es with
  | nil => intro n mm im s i j e1 e2 _ hget; simp at hget
  | cons head rest ih =>
    intro n mm im s i j e1 e2 hmap hget1 hen1 hmac1 hs1 hget2 hen2 hmac2 hs2
      hij hfirst
    cases i with
    | zero =>
      have he : head = e1 := by simpa using hget1
      subst he
      obtain ⟨j', rfl⟩ : ∃ j', j = j' + 1 := ⟨j - 1, by omega⟩
      have hget2' : rest.get? j' = some e2 := by simpa using hget2
      have hstep : macDupStep head n mm = ([], mm ++ [(s, n)]) := by
        unfold macDupStep
        rw [if_pos ⟨hen1, hmac1⟩, hs1, hmap]
      have hmap' : idxFind (mm ++ [(s, n)]) s = some n := by
        rw [idxFind_append_one hmap, if_pos rfl]
      have hmem := validateGo_mem_dupMac_of_map rest (n + 1)
        (macDupStep head n mm).2 (ipDupStep head n im).2
        (by rw [hstep]; exact hmap') hget2' hen2 hmac2 hs2
      have harith : n + 1 + j' + 1 = n + (j' + 1) + 1 := by omega
      rw [harith] at hmem
      simp only [managerValidateGo]
      simp [hmem]
    | succ i =>
      have hget1' : rest.get? i = some e1 := by simpa using hget1
      obtain ⟨j', rfl⟩ : ∃ j', j = j' + 1 := ⟨j - 1, by omega⟩
      have hget2' : rest.get? j' = some e2 := by simpa using hget2
      have hheadne : macStrOpt head.mac ≠ s ∨ head.enabled = false := by
        by_cases hhe : head.enabled = true
        · exact Or.inl (hfirst 0 (by omega) head (by simp) hhe)
        · exact Or.inr (by simpa using hhe)
      have hmap' : idxFind (macDupStep head n mm).2 s = none := by
        unfold macDupStep
        split
        · rename_i hcond
          cases hidx : idxFind mm (macStrOpt head.mac) with
          | some v => simpa using hmap
          | none =>
            simp only
            rw [idxFind_append_one hmap]
            rcases hheadne with hne | hdis
            · rw [if_neg hne]
            · rw [hdis] at hcond; simp at hcond
        · simpa using hmap
      have hmem := ih (n + 1) (macDupStep head n mm).2 (ipDupStep head n im).2
        hmap' hget1' hen1 hmac1 hs1 hget2' hen2 hmac2 hs2 (by omega)
        (fun k hk ek hgetk henk =>
          hfirst (k + 1) (by omega) ek (by simpa using hgetk) henk)
      have harith : n + 1 + i + 1 = n + (i + 1) + 1 := by omega
      have harith2 : n + 1 + j' + 1 = n + (j' + 1) + 1 := by omega
      rw [harith, harith2] at hmem
      simp only [managerValidateGo]
      simp [hmem]

theorem validateGo_mem_dupIp_of_map :
    ∀ (es : List StaticDHCPEntry) (n : Nat) mm im {s : Str} {f j : Nat} {e2},
      idxFind im s = some f →
      es.get? j = some e2 → e2.enabled = true → e2.ip ≠ none →
      ipKey e2 = s →
      dupIpStr s (f + 1) (n + j + 1) ∈ managerValidateGo es n mm im := by
  intro es
  induction es with
  | nil => intro n mm im s f j e2 _ hget; simp at hget
  | cons head rest ih =>
    intro n mm im s f j e2 hmap hget hen hip hs
    cases j with
    | zero =>
      have he : head = e2 := by simpa using hget
      subst he
      have hstep : ipDupStep head n im =
          ([dupIpStr s (f + 1) (n + 1)], im) := by
        unfold ipDupStep
        rw [if_pos ⟨hen, hip⟩, hs, hmap]
      simp only [managerValidateGo, hstep]
      simp
    | succ j =>
      have hget' : rest.get? j = some e2 := by simpa using hget
      have hmap' : idxFind (ipDupStep head n im).2 s = some f := by
        rcases ipDupStep_parts head n im with hp | hp <;> rw [hp]
        · exact hmap
        · exact idxFind_append_some hmap _
      have hmem := ih (n + 1) (macDupStep head n mm).2 (ipDupStep head n im).2
        hmap' hget' hen hip hs
      have harith : n + 1 + j + 1 = n + (j + 1) + 1 := by omega
      rw [harith] at hmem
      simp only [managerValidateGo]
      simp [hmem]

theorem validateGo_mem_dupIp_first :
    ∀ (es : List StaticDHCPEntry) (n : Nat) mm im {s : Str} {i j : Nat} {e1 e2},
      idxFind im s = none →
      es.get? i = some e1 → e1.enabled = true → e1.ip ≠ none →
      ipKey e1 = s →
      es.get? j = some e2 → e2.enabled = true → e2.ip ≠ none →
      ipKey e2 = s →
      i < j →
      (∀ k < i, ∀ ek, es.get? k = some ek → ek.enabled = true →
        ipKey ek ≠ s) →
      dupIpStr s (n + i + 1) (n + j + 1) ∈ managerValidateGo es n mm im := by
  intro es
  induction es with
  | nil => intro n mm im s i j e1 e2 _ hget; simp at hget
  | cons head rest ih =>
    intro n mm im s i j e1 e2 hmap hget1 hen1 hip1 hs1 hget2 hen2 hip2 hs2
      hij hfirst
    cases i with
    | zero =>
      have he : head = e1 := by simpa using hget1
      subst he
      obtain ⟨j', rfl⟩ : ∃ j', j = j' + 1 := ⟨j - 1, by omega⟩
      have hget2' : rest.get? j' = some e2 := by simpa using hget2
      have hstep : ipDupStep head n im = ([], im ++ [(s, n)]) := by
        unfold ipDupStep
        rw [if_pos ⟨hen1, hip1⟩, hs1, hmap]
      have hmap' : idxFind (im ++ [(s, n)]) s = some n := by
        rw [idxFind_append_one hmap, if_pos rfl]
      have hmem := validateGo_mem_dupIp_of_map rest (n + 1)
        (macDupStep head n mm).2 (ipDupStep head n im).2
        (by rw [hstep]; exact hmap') hget2' hen2 hip2 hs2
      have harith : n + 1 + j' + 1 = n + (j' + 1) + 1 := by omega
      rw [harith] at hmem
      simp only [managerValidateGo]
      simp [hmem]
    | succ i =>
      have hget1' : rest.get? i = some e1 := by simpa using hget1
      obtain ⟨j', rfl⟩ : ∃ j', j = j' + 1 := ⟨j - 1, by omega⟩
      have hget2' : rest.get? j' = some e2 := by simpa using hget2
      have hheadne : ipKey head ≠ s ∨ head.enabled = false := by
        by_cases hhe : head.enabled = true
        · exact Or.inl (hfirst 0 (by omega) head (by simp) hhe)
        · exact Or.inr (by simpa using hhe)
      have hmap' : idxFind (ipDupStep head n im).2 s = none := by
        unfold ipDupStep
        split
        · rename_i hcond
          cases hidx : idxFind im (ipKey head) with
          | some v => simpa using hmap
          | none =>
            simp only
            rw [idxFind_append_one hmap]
            rcases hheadne with hne | hdis
            · rw [if_neg hne]
            · rw [hdis] at hcond; simp at hcond
        · simpa using hmap
      have hmem := ih (n + 1) (macDupStep head n mm).2 (ipDupStep head n im).2
        hmap' hget1' hen1 hip1 hs1 hget2' hen2 hip2 hs2 (by omega)
        (fun k hk ek hgetk henk =>
          hfirst (k + 1) (by omega) ek (by simpa using hgetk) henk)
      have harith : n + 1 + i + 1 = n + (i + 1) + 1 := by omega
      have harith2 : n + 1 + j' + 1 = n + (j' + 1) + 1 := by omega
      rw [harith, harith2] at hmem
      simp only [managerValidateGo]
      simp [hmem]

theorem managerAdd_err_keeps {entries : List StaticDHCPEntry}
    {e : StaticDHCPEntry} {now : Int} :
    (managerAdd entries e now).1 = none ∨ (managerAdd entries e now).2 = entries := by
  unfold managerAdd
  repeat' split
  all_goals simp

theorem managerUpdate_err_keeps {entries : List StaticDHCPEntry} {id : Str}
    {u : StaticDHCPEntry} :
    (managerUpdate entries id u).1 = none ∨ (managerUpdate entries id u).2 = entries := by
  unfold managerUpdate
  repeat' split
  all_goals simp

theorem managerDelete_err_keeps {entries : List StaticDHCPEntry} {id : Str} :
    (managerDelete entries id).1 = none ∨ (managerDelete entries id).2 = entries := by
  unfold managerDelete
  repeat' split
  all_goals simp

theorem managerSetEnabled_err_keeps {entries : List StaticDHCPEntry} {id : Str}
    {flag : Bool} :
    (managerSetEnabled entries id flag).1 = none ∨
      (managerSetEnabled entries id flag).2 = entries := by
  unfold managerSetEnabled
  repeat' split
  all_goals simp

theorem managerLoad_err_keeps {entries : List StaticDHCPEntry}
    {parsed : Except Unit (List StaticDHCPEntry)} :
    (managerLoad entries parsed).1 = none ∨ (managerLoad entries parsed).2 = entries := by
  unfold managerLoad
  repeat' split
  all_goals simp

theorem loadDHCPLeases_err_keeps {st : MonitorState} {readRes : Except Unit Str}
    {p : DhcpParser} {now : Int} :
    (loadDHCPLeases st readRes p now).1 = none ∨
      (loadDHCPLeases st readRes p now).2 = st := by
  unfold loadDHCPLeases
  repeat' split
  all_goals simp

theorem loadHostEntries_err_keeps {st : MonitorState} {readRes : Except Unit Str} :
    (loadHostEntries st readRes).1 = none ∨ (loadHostEntries st readRes).2 = st := by
  unfold loadHostEntries
  repeat' split
  all_goals simp

/-! ## The claims -/

/-- C4: Every failing operation leaves state exactly as it was: when Add,
Update, Delete, Enable or Disable returns an error the store's entry list is
unchanged, and when a reload (static Load, or the monitor's lease/hosts
load) fails to read or parse, the previously published snapshot remains
intact with no partial overwrite. -/
theorem failing_operations_preserve_state :
    (∀ (entries : List StaticDHCPEntry) (e : StaticDHCPEntry) (now : Int),
      (managerAdd entries e now).1 ≠ none → (managerAdd entries e now).2 = entries) ∧
    (∀ (entries : List StaticDHCPEntry) (id : Str) (u : StaticDHCPEntry),
      (managerUpdate entries id u).1 ≠ none → (managerUpdate entries id u).2 = entries) ∧
    (∀ (entries : List StaticDHCPEntry) (id : Str),
      (managerDelete entries id).1 ≠ none → (managerDelete entries id).2 = entries) ∧
    (∀ (entries : List StaticDHCPEntry) (id : Str),
      (managerEnable entries id).1 ≠ none → (managerEnable entries id).2 = entries) ∧
    (∀ (entries : List StaticDHCPEntry) (id : Str),
      (managerDisable entries id).1 ≠ none → (managerDisable entries id).2 = entries) ∧
    (∀ (entries : List StaticDHCPEntry) (parsed : Except Unit (List StaticDHCPEntry)),
      (managerLoad entries parsed).1 ≠ none → (managerLoad entries parsed).2 = entries) ∧
    (∀ (st : MonitorState) (readRes : Except Unit Str) (p : DhcpParser) (now : Int),
      (loadDHCPLeases st readRes p now).1 ≠ none →
        (loadDHCPLeases st readRes p now).2 = st) ∧
    (∀ (st : MonitorState) (readRes : Except Unit Str),
      (loadHostEntries st readRes).1 ≠ none → (loadHostEntries st readRes).2 = st) := by
  refine ⟨?_, ?_, ?_, ?_, ?_, ?_, ?_, ?_⟩
  · intro entries e now h
    rcases @managerAdd_err_keeps entries e now with h1 | h1
    · exact absurd h1 h
    · exact h1
  · intro entries id u h
    rcases @managerUpdate_err_keeps entries id u with h1 | h1
    · exact absurd h1 h
    · exact h1
  · intro entries id h
    rcases @managerDelete_err_keeps entries id with h1 | h1
    · exact absurd h1 h
    · exact h1
  · intro entries id h
    rcases @managerSetEnabled_err_keeps entries id true with h1 | h1
    · exact absurd h1 h
    · exact h1
  · intro entries id h
    rcases @managerSetEnabled_err_keeps entries id false with h1 | h1
    · exact absurd h1 h
    · exact h1
  · intro entries parsed h
    rcases @managerLoad_err_keeps entries parsed with h1 | h1
    · exact absurd h1 h
    · exact h1
  · intro st readRes p now h
    rcases @loadDHCPLeases_err_keeps st readRes p now with h1 | h1
    · exact absurd h1 h
    · exact h1
  · intro st readRes h
    rcases @loadHostEntries_err_keeps st readRes with h1 | h1
    · exact absurd h1 h
    · exact h1

/-- C4 witness: deleting an unknown id from a one-entry store fails and
leaves the store unchanged; a failed read leaves the monitor snapshot. -/
theorem failing_operations_preserve_state_witness :
    ((managerDelete [entA] "nope".data).1 ≠ none ∧
      (managerDelete [entA] "nope".data).2 = [entA]) ∧
    ((loadDHCPLeases {} (.error ()) pNoStatic 0).1 ≠ none ∧
      (loadDHCPLeases {} (.error ()) pNoStatic 0).2 = {}) :=
  ⟨⟨by decide, failing_operations_preserve_state.2.2.1 [entA] "nope".data (by decide)⟩,
    ⟨by simp [loadDHCPLeases],
      failing_operations_preserve_state.2.2.2.2.2.2.1 {} (.error ()) pNoStatic 0
        (by simp [loadDHCPLeases])⟩⟩

/-- C6: For every MAC string whose second hex digit after uppercasing is 2,
6, A or E, with no backing-store match and a freshly constructed
(non-preloaded) database, Lookup returns the shared private-MAC record; the
four `PRIVATE-*` cache keys all hold that one identical record. -/
theorem lookup_private_mac_shared :
    (∀ (fileEntries : List OUIEntry) (mac : Str),
      ((toUpperStr mac).get? 1 = some '2' ∨ (toUpperStr mac).get? 1 = some '6' ∨
        (toUpperStr mac).get? 1 = some 'A' ∨ (toUpperStr mac).get? 1 = some 'E') →
      searchFile fileEntries (toUpperStr mac) = none →
      (lookup (newDatabase fileEntries false) mac).1 = some privateMAC) ∧
    (cacheFind initializeDefaults "PRIVATE-2".data = some privateMAC ∧
      cacheFind initializeDefaults "PRIVATE-6".data = some privateMAC ∧
      cacheFind initializeDefaults "PRIVATE-A".data = some privateMAC ∧
      cacheFind initializeDefaults "PRIVATE-E".data = some privateMAC) := by
  refine ⟨?_, by decide⟩
  intro fE mac hd _hsf
  have hdb : newDatabase fE false =
      { cache := initializeDefaults, fileEntries := fE, preloaded := false } := by
    simp [newDatabase]
  have hd' : ∃ d, (toUpperStr mac).get? 1 = some d ∧
      (d = '2' ∨ d = '6' ∨ d = 'A' ∨ d = 'E') := by
    rcases hd with h | h | h | h
    exacts [⟨'2', h, by simp⟩, ⟨'6', h, by simp⟩, ⟨'A', h, by simp⟩, ⟨'E', h, by simp⟩]
  obtain ⟨d, hg, hdd⟩ := hd'
  have hnone := cacheFind_take_defaults hg hdd
  have hlen : 1 < (toUpperStr mac).length := (List.get?_eq_some.mp hg).1
  have htry : tryCachePrefixes initializeDefaults (toUpperStr mac)
      (toUpperStr mac).length = none :=
    tryCachePrefixes_eq_none (fun k _ => hnone k)
  rw [hdb]
  unfold lookup
  dsimp only
  rw [htry]
  unfold privateKeyFor
  rw [if_pos hlen, hg]
  rcases hdd with h | h | h | h <;> subst h <;> simp <;> decide

/-- C6 witness: each of the four locally-administered second digits yields
the shared private record on a fresh empty database. -/
theorem lookup_private_mac_shared_witness :
    (lookup (newDatabase [] false) "02:00:00:00:00:01".data).1 = some privateMAC ∧
    (lookup (newDatabase [] false) "a6:00:00:00:00:01".data).1 = some privateMAC ∧
    (lookup (newDatabase [] false) "0A:00:00:00:00:01".data).1 = some privateMAC ∧
    (lookup (newDatabase [] false) "0E:00:00:00:00:01".data).1 = some privateMAC :=
  ⟨lookup_private_mac_shared.1 [] _ (by decide) (by decide),
    lookup_private_mac_shared.1 [] _ (by decide) (by decide),
    lookup_private_mac_shared.1 [] _ (by decide) (by decide),
    lookup_private_mac_shared.1 [] _ (by decide) (by decide)⟩

/-- C7: In static-config line parsing the first comma-separated value is the
MAC; remaining values are classified by shape (recognized `set:`/`tag:`
prefix becomes the tag, an IP-parseable value becomes the IP, any other bare
value becomes both hostname and identifier); results are static with the
fixed ten-year remaining duration; in particular
`dhcp-host=AA:BB:CC:DD:EE:FF,set:trusted,192.168.1.50,myhost` parses to tag
`trusted`, ip `192.168.1.50`, hostname and id both `myhost`. -/
theorem parseStaticLine_shape :
    (okValue (parseStaticLine db0 0 c7line).1 = some c7rec ∧
      c7rec.tag = "trusted".data ∧ c7rec.ip = some (.v4 192 168 1 50) ∧
      c7rec.name = "myhost".data ∧ c7rec.id = "myhost".data ∧
      c7rec.mac = some [0xAA, 0xBB, 0xCC, 0xDD, 0xEE, 0xFF] ∧
      c7rec.static = true ∧ c7rec.remain = tenYearsNs) ∧
    (∀ (db : Database) (now : Int) (line : Str) (l : DHCPLease) (db2 : Database),
      parseStaticLine db now line = (.ok l, db2) →
      l.static = true ∧ l.remain = tenYearsNs ∧
      l.expire = some (now + tenYearsSec) ∧ l.name = l.id) := by
  refine ⟨by decide, ?_⟩
  intro db now line l db2 h
  unfold parseStaticLine at h
  dsimp only at h
  split at h
  · exact absurd h (by simp)
  split at h
  · exact absurd h (by simp)
  split at h
  · exact absurd h (by simp)
  rename_i mv hmv
  simp only [Prod.mk.injEq, Except.ok.injEq] at h
  obtain ⟨hl, -⟩ := h
  subst hl
  have hbase := staticFold_pres
    (List.drop 1 (splitOnChar ',' ((splitOnChar '='
      (stripComment line)).getD 1 [])))
    { mac := some mv,
      info := (lookup db ((splitOnChar ','
        ((splitOnChar '=' (stripComment line)).getD 1 [])).getD 0 [])).1,
      static := true } rfl
  exact ⟨hbase.1, rfl, rfl, hbase.2⟩

/-- C7 witness: the general shape facts applied to the spec's example line. -/
theorem parseStaticLine_shape_witness :
    parseStaticLine db0 0 c7line = (.ok c7rec, db0) ∧
    (c7rec.static = true ∧ c7rec.remain = tenYearsNs ∧
      c7rec.expire = some ((0 : Int) + tenYearsSec) ∧ c7rec.name = c7rec.id) := by
  have hparse : parseStaticLine db0 0 c7line = (.ok c7rec, db0) := by rfl
  exact ⟨hparse, parseStaticLine_shape.2 db0 0 c7line c7rec db0 hparse⟩

/-- C8: Lease-file parsing never fails as a whole; a line with fewer than
five whitespace-separated tokens contributes no record; and the line
`1700000000 AA:BB:CC:DD:EE:FF 192.168.1.10 myhost client1` parses to a
record with isStatic=false, ip 192.168.1.10 and hostname myhost. -/
theorem parseLeases_never_fails :
    (∀ (p : DhcpParser) (now : Int) (content : Str),
      ∃ ls, (parseLeases p now content).1 = .ok ls) ∧
    (∀ (now : Int) (acc : Database × List DHCPLease) (rawLine : Str),
      (fieldsFn (trimSpace rawLine)).length < 5 → leaseLineStep now acc rawLine = acc) ∧
    (okValue (parseLeases pNoStatic 1699999000 c8line).1 = some [c8rec] ∧
      c8rec.static = false ∧ c8rec.ip = some (.v4 192 168 1 10) ∧
      c8rec.name = "myhost".data) := by
  refine ⟨?_, ?_, by decide⟩
  · intro p now content
    unfold parseLeases
    dsimp only
    cases p.staticFile with
    | none => exact ⟨_, rfl⟩
    | some read =>
      dsimp only
      cases hpr : parseStaticLeasesFrom read
          ((splitOnChar '\n' content).foldl (leaseLineStep now) (p.macDB, [])).1 now with
      | error e => exact ⟨_, rfl⟩
      | ok pr =>
        rcases pr with ⟨sl, db2⟩
        exact ⟨_, rfl⟩
  · intro now acc rawLine h
    unfold leaseLineStep
    by_cases he : trimSpace rawLine = []
    · simp [he]
    · simp [he, h]

/-- C8 witness: the short-line rule applied to a two-token line, and total
parsing applied to a concrete input. -/
theorem parseLeases_never_fails_witness :
    ((fieldsFn (trimSpace "two tokens".data)).length < 5 ∧
      leaseLineStep 0 (db0, []) "two tokens".data = (db0, [])) ∧
    (∃ ls, (parseLeases pNoStatic 0 "garbage".data).1 = .ok ls) :=
  ⟨⟨by decide, parseLeases_never_fails.2.1 0 (db0, []) "two tokens".data (by decide)⟩,
    parseLeases_never_fails.1 pNoStatic 0 "garbage".data⟩

/-- C9 (code bug): two Adds during the same clock second both succeed and
assign the same generated id `entry_<unix-second>`, violating id
uniqueness. -/
theorem managerAdd_same_second_duplicate_ids :
    addF1.mac ≠ addF2.mac ∧
    (managerAdd [] addF1 100).1 = none ∧
    (managerAdd (managerAdd [] addF1 100).2 addF2 100).1 = none ∧
    (managerAdd (managerAdd [] addF1 100).2 addF2 100).2.length = 2 ∧
    ((managerAdd (managerAdd [] addF1 100).2 addF2 100).2.getD 0 {}).id =
      ((managerAdd (managerAdd [] addF1 100).2 addF2 100).2.getD 1 {}).id := by
  decide

/-- C10: For every lease line of at least five tokens a record is emitted
even when individual fields fail to parse; the per-line parser never
returns an error; unparseable timestamp, MAC and IP fields are left at
their zero values. -/
theorem parseLeaseLine_total_zero_values :
    (∀ (db : Database) (now : Int) (fs : List Str),
      ∃ r, parseLeaseLine db now fs = .ok r) ∧
    (∀ (now : Int) (db : Database) (ls : List DHCPLease) (rawLine : Str),
      5 ≤ (fieldsFn (trimSpace rawLine)).length →
      ∃ l db2, parseLeaseLine db now (fieldsFn (trimSpace rawLine)) = .ok (l, db2) ∧
        leaseLineStep now (db, ls) rawLine = (db2, ls ++ [l])) ∧
    (parseLeaseLine db0 0 (fieldsFn (trimSpace c10line)) = .ok (c10rec, db0) ∧
      c10rec.expire = none ∧ c10rec.remain = 0 ∧ c10rec.mac = none ∧
      c10rec.info = none ∧ c10rec.ip = none ∧ c10rec.name = "myhost".data ∧
      c10rec.id = "client1".data) := by
  refine ⟨?_, ?_, ⟨by rfl, by decide, by decide, by decide, by decide, by decide,
    by decide, by decide⟩⟩
  · intro db now fs
    exact ⟨_, rfl⟩
  · intro now db ls rawLine h
    have hne : trimSpace rawLine ≠ [] := by
      intro he
      rw [he] at h
      exact absurd h (by decide)
    obtain ⟨r, hr⟩ : ∃ r, parseLeaseLine db now (fieldsFn (trimSpace rawLine)) = .ok r :=
      ⟨_, rfl⟩
    rcases r with ⟨l, db2⟩
    refine ⟨l, db2, hr, ?_⟩
    unfold leaseLineStep
    dsimp only
    rw [if_neg hne, if_neg (by omega), hr]

/-- C10 witness: a five-token line with an unparseable MAC still yields
exactly one appended record. -/
theorem parseLeaseLine_total_zero_values_witness :
    5 ≤ (fieldsFn (trimSpace c10line)).length ∧
    ∃ l db2, parseLeaseLine db0 0 (fieldsFn (trimSpace c10line)) = .ok (l, db2) ∧
      leaseLineStep 0 (db0, []) c10line = (db2, [] ++ [l]) :=
  ⟨by decide, parseLeaseLine_total_zero_values.2.1 0 db0 [] c10line (by decide)⟩

/-- C5 counterexample: two MAC strings matching backing-store prefixes for
which Lookup does not return the store's vendor record. For the first, the
locally-administered second hex digit `2` makes Lookup answer the shared
private record before the store is ever consulted. For the second, Lookup
reaches the store scan while still holding the read lock it took on entry;
the hit then takes the write lock of the same non-reentrant RWMutex, so the
call blocks forever and never returns anything at all. -/
theorem lookup_store_record_never_returned :
    (startsWith (toUpperStr vendorA2.oui) (toUpperStr macA2) = true ∧
      searchFile [vendorA2] (toUpperStr macA2) = some vendorA2 ∧
      lookupRun (newDatabase [vendorA2] false) macA2 =
        MutexRun.ret (some privateMAC, newDatabase [vendorA2] false) ∧
      privateMAC ≠ vendorA2) ∧
    (startsWith (toUpperStr vendorA0.oui) (toUpperStr macA0) = true ∧
      searchFile [vendorA0] (toUpperStr macA0) = some vendorA0 ∧
      lookupRun (newDatabase [vendorA0] false) macA0 = MutexRun.blocked) := by
  decide

/-- C5 (amended): Lookup uppercases its input and probes cache keys that
are prefixes of the input from full length down to zero, first hit wins, so
the longest matching cached prefix beats any shorter one; and whenever the
backing store would be consulted and holds a matching record (no cached key
is a prefix of the input, the second hex digit is not 2/6/A/E, the store
was not preloaded), Lookup never returns at all — still holding its own
read lock, it blocks forever taking the cache-insert write lock of the same
non-reentrant RWMutex — regardless of trailing characters in the input. -/
theorem lookup_cached_wins_store_blocks :
    (∀ (db : Database) (mac : Str) (j : Nat) (e : OUIEntry),
      j ≤ (toUpperStr mac).length →
      cacheFind db.cache ((toUpperStr mac).take j) = some e →
      (∀ k < (toUpperStr mac).length + 1, j < k →
        cacheFind db.cache ((toUpperStr mac).take k) = none) →
      lookupRun db mac = MutexRun.ret (some e, db)) ∧
    (∀ (db : Database) (mac : Str) (e : OUIEntry),
      db.preloaded = false →
      (∀ k < (toUpperStr mac).length + 1,
        cacheFind db.cache ((toUpperStr mac).take k) = none) →
      (toUpperStr mac).get? 1 ∉ [some '2', some '6', some 'A', some 'E'] →
      searchFile db.fileEntries (toUpperStr mac) = some e →
      lookupRun db mac = MutexRun.blocked) := by
  refine ⟨?_, ?_⟩
  · intro db mac j e hjn hj habove
    exact lookupRun_longest_cached hjn hj habove
  · intro db mac e hpre hnone hdig hsf
    have hpriv : privateKeyFor (toUpperStr mac) = none := by
      unfold privateKeyFor
      split
      · rcases hg : (toUpperStr mac).get? 1 with - | c
        · rfl
        · rw [hg] at hdig
          simp only [List.mem_cons, List.mem_singleton, Option.some.injEq] at hdig
          push_neg at hdig
          obtain ⟨h2, h6, hA, hE⟩ := hdig
          simp [h2, h6, hA, hE]
      · rfl
    exact lookupRun_store_blocked hpre hnone hpriv hsf

/-- C5 witness: the five-character cached key beats the two-character one on
`dbTwo`, and an ordinary (globally administered) MAC that matches a store
record on a fresh database makes the Lookup call block forever. -/
theorem lookup_cached_wins_store_blocks_witness :
    (cacheFind dbTwo.cache ((toUpperStr "a0:bb:cc".data).take 5) = some vLong ∧
      lookupRun dbTwo "a0:bb:cc".data = MutexRun.ret (some vLong, dbTwo)) ∧
    (searchFile (newDatabase [vendorA0] false).fileEntries (toUpperStr macA0) =
        some vendorA0 ∧
      lookupRun (newDatabase [vendorA0] false) macA0 = MutexRun.blocked) :=
  ⟨⟨by decide,
      lookup_cached_wins_store_blocks.1 dbTwo "a0:bb:cc".data 5 vLong
        (by decide) (by decide) (by decide)⟩,
    ⟨by decide,
      lookup_cached_wins_store_blocks.2 (newDatabase [vendorA0] false) macA0 vendorA0
        (by decide) (by decide) (by decide) (by decide)⟩⟩

/-- C2 counterexample: two valid entries sharing a MAC, the enabled one
added first; adding the second — although it is disabled — fails with a
conflict, refuting "the same pair with one of them disabled succeeds" for
this ordering (the conflict check only consults existing entries' enabled
flags). -/
theorem managerAdd_enabled_first_blocks_disabled :
    entA.enabled = true ∧ entB.enabled = false ∧
    entryValidate entA = none ∧ entryValidate entB = none ∧
    macStrOpt entA.mac = macStrOpt entB.mac ∧
    (managerAdd [] entA 100).1 = none ∧
    (managerAdd (managerAdd [] entA 100).2 entB 101).1 ≠ none := by
  decide

/-- C2 (amended): Add fails with a validation error when required fields
are missing, fails with a conflict error when some existing enabled entry
has the same MAC or the same non-null IP (the candidate's own enabled flag
is irrelevant), and otherwise succeeds and assigns the generated id; two
same-MAC entries both enabled fail, and the pair succeeds when the disabled
entry is added first (if the enabled one is added first, the second add
fails even when disabled). -/
theorem managerAdd_rules :
    (∀ (entries : List StaticDHCPEntry) (e : StaticDHCPEntry) (now : Int),
      e.mac = none ∨ (e.ip = none ∧ e.hostname = []) →
      (managerAdd entries e now).1 ≠ none ∧ (managerAdd entries e now).2 = entries) ∧
    (∀ (entries : List StaticDHCPEntry) (e : StaticDHCPEntry) (now : Int),
      entryValidate e = none →
      ((∃ ex ∈ entries, ex.enabled = true ∧ macStrOpt ex.mac = macStrOpt e.mac) ∨
        (∃ ip, e.ip = some ip ∧ ∃ ex ∈ entries, ex.enabled = true ∧
          ∃ exip, ex.ip = some exip ∧ ipEq exip ip = true)) →
      (managerAdd entries e now).1 ≠ none ∧ (managerAdd entries e now).2 = entries) ∧
    (∀ (entries : List StaticDHCPEntry) (e : StaticDHCPEntry) (now : Int),
      entryValidate e = none → macDup entries e = none →
      (∀ ip, e.ip = some ip → ipDup entries ip = none) →
      managerAdd entries e now = (none, entries ++
        [{ e with id := "entry_".data ++ intToStr now,
                  lineNumber := entries.length + 1 }])) ∧
    (∀ (e1 e2 : StaticDHCPEntry) (now1 now2 : Int),
      entryValidate e1 = none → entryValidate e2 = none →
      e1.enabled = true → macStrOpt e1.mac = macStrOpt e2.mac →
      (managerAdd [] e1 now1).1 = none ∧
      (managerAdd (managerAdd [] e1 now1).2 e2 now2).1 ≠ none) ∧
    (∀ (e1 e2 : StaticDHCPEntry) (now1 now2 : Int),
      entryValidate e1 = none → entryValidate e2 = none →
      e1.enabled = false →
      (managerAdd [] e1 now1).1 = none ∧
      (managerAdd (managerAdd [] e1 now1).2 e2 now2).1 = none) := by
  have hfirst : ∀ (e1 : StaticDHCPEntry) (now1 : Int), entryValidate e1 = none →
      managerAdd [] e1 now1 = (none,
        [{ e1 with id := "entry_".data ++ intToStr now1, lineNumber := 1 }]) := by
    intro e1 now1 hv1
    rcases hip : e1.ip with - | ip <;>
      simp [managerAdd, hv1, macDup, ipDup, hip, List.find?]
  refine ⟨?_, ?_, ?_, ?_, ?_⟩
  · intro entries e now hreq
    have hv : ∃ msg, entryValidate e = some msg := by
      rcases hreq with hmn | ⟨hipn, hhn⟩
      · exact ⟨"MAC address is required".data, by simp [entryValidate, hmn]⟩
      · rcases hmv : e.mac with - | mm
        · exact ⟨"MAC address is required".data, by simp [entryValidate, hmv]⟩
        · by_cases h6 : mm.length = 6
          · exact ⟨"either IP address or hostname is required".data,
              by simp [entryValidate, hmv, h6, hipn, hhn]⟩
          · exact ⟨"invalid MAC address length".data, by simp [entryValidate, hmv, h6]⟩
    obtain ⟨msg, hv⟩ := hv
    exact ⟨by simp [managerAdd, hv], by simp [managerAdd, hv]⟩
  · intro entries e now hv hconf
    rcases hconf with ⟨ex, hmem, hen, hmac⟩ | ⟨ip, hip, ex, hmem, hen, exip, hexip, heq⟩
    · have hdup : (macDup entries e).isSome := by
        unfold macDup
        exact List.find?_isSome.mpr ⟨ex, hmem, by simp [hmac, hen]⟩
      exact ⟨by simp [managerAdd, hv, hdup], by simp [managerAdd, hv, hdup]⟩
    · by_cases hdup : (macDup entries e).isSome = true
      · exact ⟨by simp [managerAdd, hv, hdup], by simp [managerAdd, hv, hdup]⟩
      · have hid : (ipDup entries ip).isSome := by
          unfold ipDup
          exact List.find?_isSome.mpr ⟨ex, hmem, by simp [hexip, heq, hen]⟩
        exact ⟨by simp [managerAdd, hv, hdup, hip, hid],
          by simp [managerAdd, hv, hdup, hip, hid]⟩
  · intro entries e now hv hmd hipn
    rcases hip : e.ip with - | ip
    · simp [managerAdd, hv, hmd, hip]
    · simp [managerAdd, hv, hmd, hip, hipn ip hip]
  · intro e1 e2 now1 now2 hv1 hv2 hen1 hmacs
    have hs1 := hfirst e1 now1 hv1
    set e1' : StaticDHCPEntry :=
      { e1 with id := "entry_".data ++ intToStr now1, lineNumber := 1 } with he1
    refine ⟨by rw [hs1], ?_⟩
    rw [hs1]
    have hdup : (macDup [e1'] e2).isSome := by
      unfold macDup
      refine List.find?_isSome.mpr ⟨e1', List.mem_cons_self _ _, ?_⟩
      have hm : e1'.mac = e1.mac := rfl
      have hb : e1'.enabled = e1.enabled := rfl
      simp [hm, hb, hmacs, hen1]
    have hres : (managerAdd [e1'] e2 now2).1 = some (macExistsMsg (macStrOpt e2.mac)) := by
      unfold managerAdd
      rw [hv2]
      dsimp only
      rw [if_pos hdup]
    rw [hres]
    simp
  · intro e1 e2 now1 now2 hv1 hv2 hdis1
    have hs1 := hfirst e1 now1 hv1
    set e1' : StaticDHCPEntry :=
      { e1 with id := "entry_".data ++ intToStr now1, lineNumber := 1 } with he1
    refine ⟨by rw [hs1], ?_⟩
    rw [hs1]
    have hmd : (macDup [e1'] e2).isSome = false := by
      unfold macDup
      simp [List.find?, hdis1]
    have hiddup : ∀ ip, (ipDup [e1'] ip).isSome = false := by
      intro ip
      unfold ipDup
      simp [List.find?, hdis1]
    rcases hip : e2.ip with - | ip
    · show (managerAdd [e1'] e2 now2).1 = none
      unfold managerAdd
      rw [hv2]
      dsimp only
      rw [if_neg (by simp [hmd]), hip]
    · show (managerAdd [e1'] e2 now2).1 = none
      unfold managerAdd
      rw [hv2]
      dsimp only
      rw [if_neg (by simp [hmd]), hip]
      dsimp only
      rw [if_neg (by simp [hiddup ip])]

/-- C2 witness: both-enabled rejection applied to a concrete pair, and
disabled-first success applied to `entB` then `entA`. -/
theorem managerAdd_rules_witness :
    ((managerAdd [] entA 100).1 = none ∧
      (managerAdd (managerAdd [] entA 100).2 entA 101).1 ≠ none) ∧
    ((managerAdd [] entB 100).1 = none ∧
      (managerAdd (managerAdd [] entB 100).2 entA 101).1 = none) :=
  ⟨managerAdd_rules.2.2.2.1 entA entA 100 101 (by decide) (by decide) (by decide) rfl,
    managerAdd_rules.2.2.2.2 entB entA 100 101 (by decide) (by decide) (by decide)⟩

/-- C3 counterexample: three enabled entries sharing one MAC. The claim's
"every duplicate MAC pair" demands a violation referencing positions 2 and
3, but the code pairs each later duplicate with the first occurrence only:
the report is exactly (1,2) and (1,3). -/
theorem managerValidate_missing_pair :
    managerValidate [dupE1, dupE2, dupE3] =
      [dupMacStr (macStrOpt dupE1.mac) 1 2, dupMacStr (macStrOpt dupE1.mac) 1 3] ∧
    dupMacStr (macStrOpt dupE1.mac) 2 3 ∉ managerValidate [dupE1, dupE2, dupE3] := by
  decide

/-- C3 (amended): Validate is a pure scan that reports every per-entry
validation failure by 1-indexed position, and for duplicate MACs and
duplicate IPs among enabled entries reports one violation per later
occurrence, pairing it with the first entry holding that MAC or IP; a
store of exactly two enabled entries sharing a MAC (with different IPs)
yields exactly one duplicate-MAC violation referencing both positions. -/
theorem managerValidate_reports :
    (∀ (entries : List StaticDHCPEntry) (i : Nat) (e : StaticDHCPEntry) (msg : Str),
      entries.get? i = some e → entryValidate e = some msg →
      entryPosErrStr (i + 1) msg ∈ managerValidate entries) ∧
    (∀ (entries : List StaticDHCPEntry) (i j : Nat) (e1 e2 : StaticDHCPEntry),
      entries.get? i = some e1 → e1.enabled = true → e1.mac ≠ none →
      entries.get? j = some e2 → e2.enabled = true → e2.mac ≠ none →
      macStrOpt e1.mac = macStrOpt e2.mac → i < j →
      (∀ k < i, ∀ ek, entries.get? k = some ek → ek.enabled = true →
        macStrOpt ek.mac ≠ macStrOpt e1.mac) →
      dupMacStr (macStrOpt e1.mac) (i + 1) (j + 1) ∈ managerValidate entries) ∧
    (∀ (entries : List StaticDHCPEntry) (i j : Nat) (e1 e2 : StaticDHCPEntry),
      entries.get? i = some e1 → e1.enabled = true → e1.ip ≠ none →
      entries.get? j = some e2 → e2.enabled = true → e2.ip ≠ none →
      ipKey e1 = ipKey e2 → i < j →
      (∀ k < i, ∀ ek, entries.get? k = some ek → ek.enabled = true →
        ipKey ek ≠ ipKey e1) →
      dupIpStr (ipKey e1) (i + 1) (j + 1) ∈ managerValidate entries) ∧
    (∀ (e1 e2 : StaticDHCPEntry) (ip1 ip2 : IPAddr),
      entryValidate e1 = none → entryValidate e2 = none →
      e1.enabled = true → e2.enabled = true →
      macStrOpt e1.mac = macStrOpt e2.mac →
      e1.ip = some ip1 → e2.ip = some ip2 → ipString ip1 ≠ ipString ip2 →
      managerValidate [e1, e2] = [dupMacStr (macStrOpt e1.mac) 1 2]) := by
  refine ⟨?_, ?_, ?_, ?_⟩
  · intro entries i e msg hget hval
    have := validateGo_mem_perEntry entries 0 [] [] i e msg hget hval
    simpa using this
  · intro entries i j e1 e2 hget1 hen1 hmac1 hget2 hen2 hmac2 hs hij hfirst
    have := validateGo_mem_dupMac_first entries 0 [] [] (s := macStrOpt e1.mac)
      rfl hget1 hen1 hmac1 rfl hget2 hen2 hmac2 hs.symm hij hfirst
    simpa using this
  · intro entries i j e1 e2 hget1 hen1 hip1 hget2 hen2 hip2 hs hij hfirst
    have := validateGo_mem_dupIp_first entries 0 [] [] (s := ipKey e1)
      rfl hget1 hen1 hip1 rfl hget2 hen2 hip2 hs.symm hij hfirst
    simpa using this
  · intro e1 e2 ip1 ip2 hv1 hv2 hen1 hen2 hmacs hip1 hip2 hipne
    have hm1 : e1.mac ≠ none := entryValidate_none_mac hv1
    have hm2 : e2.mac ≠ none := entryValidate_none_mac hv2
    have hpe1 : perEntryErrs e1 0 = [] := by simp [perEntryErrs, hv1]
    have hpe2 : perEntryErrs e2 1 = [] := by simp [perEntryErrs, hv2]
    have hms1 : macDupStep e1 0 [] = ([], [(macStrOpt e1.mac, 0)]) := by
      simp [macDupStep, hen1, hm1, idxFind]
    have his1 : ipDupStep e1 0 [] = ([], [(ipKey e1, 0)]) := by
      simp [ipDupStep, hen1, hip1, idxFind]
    have hkey : idxFind [(macStrOpt e1.mac, 0)] (macStrOpt e2.mac) = some 0 := by
      simp [idxFind, List.find?, hmacs]
    have hms2 : macDupStep e2 1 [(macStrOpt e1.mac, 0)] =
        ([dupMacStr (macStrOpt e2.mac) 1 2], [(macStrOpt e1.mac, 0)]) := by
      simp [macDupStep, hen2, hm2, hkey]
    have hipkeyne : ipKey e1 ≠ ipKey e2 := by
      simp only [ipKey, hip1, hip2]
      exact hipne
    have hkey2 : idxFind [(ipKey e1, 0)] (ipKey e2) = none := by
      simp [idxFind, List.find?, hipkeyne]
    have his2 : ipDupStep e2 1 [(ipKey e1, 0)] =
        ([], [(ipKey e1, 0), (ipKey e2, 1)]) := by
      simp [ipDupStep, hen2, hip2, hkey2]
    show managerValidateGo [e1, e2] 0 [] [] = _
    rw [managerValidateGo, hpe1, hms1, his1]
    rw [managerValidateGo, hpe2, hms2, his2]
    rw [managerValidateGo]
    simp [hmacs]

/-- C1 counterexample: a valid enabled entry with a lease time. Serializing
appends the lease time as a trailing value, and parsing classifies that
bare value as the hostname, clobbering the real one: the round trip is not
the identity on this valid enabled entry. -/
theorem toDnsmasqLine_roundtrip_loses_leaseTime :
    entryValidate eLease = none ∧ eLease.enabled = true ∧
    toDnsmasqLine eLease = "dhcp-host=AA:BB:CC:DD:EE:FF,myhost,12h".data ∧
    (okValue (parseStaticLine db0 0 (toDnsmasqLine eLease)).1).map (fun l => l.name) =
      some "12h".data ∧
    eLease.hostname ≠ "12h".data := by
  decide

/-- C1 (amended): for every valid enabled entry with an empty lease time, a
round-trippable tag (lowercase, free of separator/comment/whitespace
characters), a canonical in-range IPv4 (or no IP), and a hostname that does
not parse as an IP address, parsing the serialized config line yields a
record agreeing with the entry on MAC, tag, IP and hostname (the parsed
record carries no lease-time field, so lease time is not recovered). -/
theorem toDnsmasqLine_parse_roundTrip :
    ∀ (db : Database) (now : Int) (e : StaticDHCPEntry) (m : List Nat),
      e.enabled = true → entryValidate e = none →
      e.mac = some m → macBytesOk m = true →
      e.leaseTime = [] → tagOk e.tag = true → ipRepOk e.ip = true →
      parseIP e.hostname = none →
      ∃ l db2, parseStaticLine db now (toDnsmasqLine e) = (.ok l, db2) ∧
        l.mac = e.mac ∧ l.tag = e.tag ∧ l.ip = e.ip ∧ l.name = e.hostname := by
  intro db now e m hen hval hm hbytes hlt htag hip hhost
  obtain ⟨h6, hpres, hhostchars⟩ := entryValidate_none_facts hm hval
  have hmacEq : getFormattedMAC e = joinSep [':'] (m.map bytePair) :=
    getFormattedMAC_eq hm
  have hmb : ∀ b ∈ m, b < 256 := by
    simpa [macBytesOk, List.all_eq_true] using hbytes
  have hmacParseG : parseMAC (getFormattedMAC e) = some m := by
    rw [hmacEq]; exact parseMAC_roundTrip h6 hbytes
  have hmacCharsG : ∀ c ∈ getFormattedMAC e, safeChar c = true := by
    rw [hmacEq]
    intro c hcm
    rcases mem_joinSep hcm with hs | ⟨p, hp, hcp⟩
    · have hc : c = ':' := by simpa using hs
      subst hc; decide
    · obtain ⟨b, hbm, rfl⟩ := List.mem_map.mp hp
      exact ((bytePair_facts b (hmb b hbm)).2.2 c hcp).1
  have hhostSafe : ∀ c ∈ e.hostname, safeChar c = true :=
    fun c hc => (hostnameCharOK_props (hhostchars c hc)).1
  have hhostStep : ∀ l, staticValueStep l e.hostname =
      { l with name := e.hostname, id := e.hostname } :=
    fun l => staticValueStep_host hhostchars hhost
  by_cases htagE : e.tag = []
  case pos =>
    -- no tag value serialized
    rcases hipv : e.ip with - | p
    case none =>
      -- no IP: the hostname must be present
      have hhostNe : e.hostname ≠ [] := by
        rcases hpres with h | h
        · exact absurd hipv h
        · exact h
      have hL : toDnsmasqLine e = if e.comment ≠ [] then
          ("dhcp-host=".data ++ joinSep [','] [getFormattedMAC e, e.hostname]) ++
            " # ".data ++ e.comment
          else "dhcp-host=".data ++ joinSep [','] [getFormattedMAC e, e.hostname] := by
        simp [toDnsmasqLine, hen, hm, htagE, hipv, hhostNe, hlt]
      have hchars : ∀ p ∈ [getFormattedMAC e, e.hostname], ∀ c ∈ p, safeChar c = true := by
        intro p hp
        rcases List.mem_cons.mp hp with h | h
        · subst h; exact hmacCharsG
        · have hph : p = e.hostname := by simpa using h
          subst hph; exact hhostSafe
      have hbase := dnsmasq_base_chars hchars
      have hstrip := stripComment_toDnsmasq hbase.1 hbase.2 hL
      have hparse := @parseStaticLine_wellformed db now _ _ _ _
        hstrip hmacParseG hchars (by simp)
      refine ⟨_, _, hparse, ?_, ?_, ?_, ?_⟩ <;>
        simp [List.foldl, hhostStep, hm, htagE, hipv]
    case some =>
      obtain ⟨qa, qb, qc, qd, hform, hqa, hqb, hqc, hqd⟩ :
          ∃ qa qb qc qd, p = .v4 qa qb qc qd ∧
            qa < 256 ∧ qb < 256 ∧ qc < 256 ∧ qd < 256 := by
        rcases p with ⟨qa, qb, qc, qd⟩ | bytes
        · rw [hipv] at hip
          simp [ipRepOk, and_assoc] at hip
          exact ⟨qa, qb, qc, qd, rfl, hip.1, hip.2.1, hip.2.2.1, hip.2.2.2⟩
        · rw [hipv] at hip
          simp [ipRepOk] at hip
      subst hform
      have hipstr : ipString (.v4 qa qb qc qd) = v4String qa qb qc qd := rfl
      have hipchars : ∀ c ∈ ipString (.v4 qa qb qc qd), safeChar c = true := by
        rw [hipstr]
        intro c hc
        exact (v4String_chars hqa hqb hqc hqd c hc).1
      have hipStep : ∀ l, staticValueStep l (ipString (.v4 qa qb qc qd)) =
          { l with ip := some (.v4 qa qb qc qd) } := by
        intro l
        rw [hipstr]
        exact staticValueStep_ip hqa hqb hqc hqd
      by_cases hhostE : e.hostname = []
      case pos =>
        have hL : toDnsmasqLine e = if e.comment ≠ [] then
            ("dhcp-host=".data ++ joinSep [',']
              [getFormattedMAC e, ipString (.v4 qa qb qc qd)]) ++
              " # ".data ++ e.comment
            else "dhcp-host=".data ++ joinSep [',']
              [getFormattedMAC e, ipString (.v4 qa qb qc qd)] := by
          simp [toDnsmasqLine, hen, hm, htagE, hipv, hhostE, hlt]
        have hchars : ∀ p ∈ [getFormattedMAC e, ipString (.v4 qa qb qc qd)],
            ∀ c ∈ p, safeChar c = true := by
          intro p hp
          rcases List.mem_cons.mp hp with h | h
          · subst h; exact hmacCharsG
          · have hph : p = ipString (.v4 qa qb qc qd) := by simpa using h
            subst hph; exact hipchars
        have hbase := dnsmasq_base_chars hchars
        have hstrip := stripComment_toDnsmasq hbase.1 hbase.2 hL
        have hparse := @parseStaticLine_wellformed db now _ _ _ _
          hstrip hmacParseG hchars (by simp)
        refine ⟨_, _, hparse, ?_, ?_, ?_, ?_⟩ <;>
          simp [List.foldl, hipStep, hm, htagE, hipv, hhostE]
      case neg =>
        have hL : toDnsmasqLine e = if e.comment ≠ [] then
            ("dhcp-host=".data ++ joinSep [',']
              [getFormattedMAC e, ipString (.v4 qa qb qc qd), e.hostname]) ++
              " # ".data ++ e.comment
            else "dhcp-host=".data ++ joinSep [',']
              [getFormattedMAC e, ipString (.v4 qa qb qc qd), e.hostname] := by
          simp [toDnsmasqLine, hen, hm, htagE, hipv, hhostE, hlt]
        have hchars : ∀ p ∈ [getFormattedMAC e, ipString (.v4 qa qb qc qd), e.hostname],
            ∀ c ∈ p, safeChar c = true := by
          intro p hp
          rcases List.mem_cons.mp hp with h | h
          · subst h; exact hmacCharsG
          rcases List.mem_cons.mp h with h1 | h1
          · subst h1; exact hipchars
          · have hph : p = e.hostname := by simpa using h1
            subst hph; exact hhostSafe
        have hbase := dnsmasq_base_chars hchars
        have hstrip := stripComment_toDnsmasq hbase.1 hbase.2 hL
        have hparse := @parseStaticLine_wellformed db now _ _ _ _
          hstrip hmacParseG hchars (by simp)
        refine ⟨_, _, hparse, ?_, ?_, ?_, ?_⟩ <;>
          simp [List.foldl, hipStep, hhostStep, hm, htagE, hipv]
  case neg =>
    -- tag present
    have htagFacts : toLowerStr e.tag = e.tag ∧
        ∀ c ∈ e.tag, safeChar c = true ∧ c ≠ ':' := by
      rcases tagOk_props htag with h | h
      · exact absurd h htagE
      · exact h
    obtain ⟨hlow, htagchars⟩ := htagFacts
    have htagvChars : ∀ c ∈ "set:".data ++ e.tag, safeChar c = true := by
      intro c hc
      rcases List.mem_append.mp hc with h | h
      · have hx : ∀ c ∈ "set:".data, safeChar c = true := by decide
        exact hx c h
      · exact (htagchars c h).1
    have htagStep : ∀ l, staticValueStep l ("set:".data ++ e.tag) =
        { l with tag := e.tag } :=
      fun l => staticValueStep_tag hlow (fun hmem => (htagchars ':' hmem).2 rfl)
    have htagStepC : ∀ l, staticValueStep l ('s' :: 'e' :: 't' :: ':' :: e.tag) =
        { l with tag := e.tag } := htagStep
    rcases hipv : e.ip with - | p
    case none =>
      have hhostNe : e.hostname ≠ [] := by
        rcases hpres with h | h
        · exact absurd hipv h
        · exact h
      have hL : toDnsmasqLine e = if e.comment ≠ [] then
          ("dhcp-host=".data ++ joinSep [',']
            [getFormattedMAC e, "set:".data ++ e.tag, e.hostname]) ++
            " # ".data ++ e.comment
          else "dhcp-host=".data ++ joinSep [',']
            [getFormattedMAC e, "set:".data ++ e.tag, e.hostname] := by
        simp [toDnsmasqLine, hen, hm, htagE, hipv, hhostNe, hlt]
      have hchars : ∀ p ∈ [getFormattedMAC e, "set:".data ++ e.tag, e.hostname],
          ∀ c ∈ p, safeChar c = true := by
        intro p hp
        rcases List.mem_cons.mp hp with h | h
        · subst h; exact hmacCharsG
        rcases List.mem_cons.mp h with h1 | h1
        · subst h1; exact htagvChars
        · have hph : p = e.hostname := by simpa using h1
          subst hph; exact hhostSafe
      have hbase := dnsmasq_base_chars hchars
      have hstrip := stripComment_toDnsmasq hbase.1 hbase.2 hL
      have hparse := @parseStaticLine_wellformed db now _ _ _ _
        hstrip hmacParseG hchars (by simp)
      refine ⟨_, _, hparse, ?_, ?_, ?_, ?_⟩ <;>
        simp [List.foldl, htagStepC, hhostStep, hm, hipv]
    case some =>
      obtain ⟨qa, qb, qc, qd, hform, hqa, hqb, hqc, hqd⟩ :
          ∃ qa qb qc qd, p = .v4 qa qb qc qd ∧
            qa < 256 ∧ qb < 256 ∧ qc < 256 ∧ qd < 256 := by
        rcases p with ⟨qa, qb, qc, qd⟩ | bytes
        · rw [hipv] at hip
          simp [ipRepOk, and_assoc] at hip
          exact ⟨qa, qb, qc, qd, rfl, hip.1, hip.2.1, hip.2.2.1, hip.2.2.2⟩
        · rw [hipv] at hip
          simp [ipRepOk] at hip
      subst hform
      have hipstr : ipString (.v4 qa qb qc qd) = v4String qa qb qc qd := rfl
      have hipchars : ∀ c ∈ ipString (.v4 qa qb qc qd), safeChar c = true := by
        rw [hipstr]
        intro c hc
        exact (v4String_chars hqa hqb hqc hqd c hc).1
      have hipStep : ∀ l, staticValueStep l (ipString (.v4 qa qb qc qd)) =
          { l with ip := some (.v4 qa qb qc qd) } := by
        intro l
        rw [hipstr]
        exact staticValueStep_ip hqa hqb hqc hqd
      by_cases hhostE : e.hostname = []
      case pos =>
        have hL : toDnsmasqLine e = if e.comment ≠ [] then
            ("dhcp-host=".data ++ joinSep [',']
              [getFormattedMAC e, "set:".data ++ e.tag, ipString (.v4 qa qb qc qd)]) ++
              " # ".data ++ e.comment
            else "dhcp-host=".data ++ joinSep [',']
              [getFormattedMAC e, "set:".data ++ e.tag, ipString (.v4 qa qb qc qd)] := by
          simp [toDnsmasqLine, hen, hm, htagE, hipv, hhostE, hlt]
        have hchars : ∀ p ∈ [getFormattedMAC e, "set:".data ++ e.tag,
            ipString (.v4 qa qb qc qd)], ∀ c ∈ p, safeChar c = true := by
          intro p hp
          rcases List.mem_cons.mp hp with h | h
          · subst h; exact hmacCharsG
          rcases List.mem_cons.mp h with h1 | h1
          · subst h1; exact htagvChars
          · have hph : p = ipString (.v4 qa qb qc qd) := by simpa using h1
            subst hph; exact hipchars
        have hbase := dnsmasq_base_chars hchars
        have hstrip := stripComment_toDnsmasq hbase.1 hbase.2 hL
        have hparse := @parseStaticLine_wellformed db now _ _ _ _
          hstrip hmacParseG hchars (by simp)
        refine ⟨_, _, hparse, ?_, ?_, ?_, ?_⟩ <;>
          simp [List.foldl, htagStepC, hipStep, hm, hipv, hhostE]
      case neg =>
        have hL : toDnsmasqLine e = if e.comment ≠ [] then
            ("dhcp-host=".data ++ joinSep [','] [getFormattedMAC e,
              "set:".data ++ e.tag, ipString (.v4 qa qb qc qd), e.hostname]) ++
              " # ".data ++ e.comment
            else "dhcp-host=".data ++ joinSep [','] [getFormattedMAC e,
              "set:".data ++ e.tag, ipString (.v4 qa qb qc qd), e.hostname] := by
          simp [toDnsmasqLine, hen, hm, htagE, hipv, hhostE, hlt]
        have hchars : ∀ p ∈ [getFormattedMAC e, "set:".data ++ e.tag,
            ipString (.v4 qa qb qc qd), e.hostname], ∀ c ∈ p, safeChar c = true := by
          intro p hp
          rcases List.mem_cons.mp hp with h | h
          · subst h; exact hmacCharsG
          rcases List.mem_cons.mp h with h1 | h1
          · subst h1; exact htagvChars
          rcases List.mem_cons.mp h1 with h2 | h2
          · subst h2; exact hipchars
          · have hph : p = e.hostname := by simpa using h2
            subst hph; exact hhostSafe
        have hbase := dnsmasq_base_chars hchars
        have hstrip := stripComment_toDnsmasq hbase.1 hbase.2 hL
        have hparse := @parseStaticLine_wellformed db now _ _ _ _
          hstrip hmacParseG hchars (by simp)
        refine ⟨_, _, hparse, ?_, ?_, ?_, ?_⟩ <;>
          simp [List.foldl, htagStepC, hipStep, hhostStep, hm, hipv]

/-- C1 witness: the round trip applied to a concrete valid enabled entry
with tag, IP, hostname and comment. -/
theorem toDnsmasqLine_parse_roundTrip_witness :
    eRound.enabled = true ∧ entryValidate eRound = none ∧
    ∃ l db2, parseStaticLine db0 0 (toDnsmasqLine eRound) = (.ok l, db2) ∧
      l.mac = eRound.mac ∧ l.tag = eRound.tag ∧ l.ip = eRound.ip ∧
      l.name = eRound.hostname :=
  ⟨by decide, by decide,
    toDnsmasqLine_parse_roundTrip db0 0 eRound [0xAA, 0xBB, 0xCC, 0xDD, 0xEE, 0x01]
      (by decide) (by decide) rfl (by decide) rfl (by decide) (by decide) (by decide)⟩

/-- C3 witness: the two-entry instance on concrete entries with MAC
`AA:BB:CC:DD:EE:01` and distinct IPs, and the per-entry rule on a store
with one invalid entry. -/
theorem managerValidate_reports_witness :
    managerValidate [dupE1, dupE2] = [dupMacStr (macStrOpt dupE1.mac) 1 2] ∧
    dupIpStr (ipKey dupIpE1) 1 2 ∈ managerValidate [dupIpE1, dupIpE2] ∧
    entryPosErrStr 1 "MAC address is required".data ∈
      managerValidate [({ hostname := "x".data } : StaticDHCPEntry)] :=
  ⟨managerValidate_reports.2.2.2 dupE1 dupE2 (.v4 10 0 0 1) (.v4 10 0 0 2)
      (by decide) (by decide) (by decide) (by decide) rfl rfl rfl (by decide),
    managerValidate_reports.2.2.1 [dupIpE1, dupIpE2] 0 1 dupIpE1 dupIpE2
      rfl (by decide) (by decide) rfl (by decide) (by decide) rfl (by decide)
      (fun k hk => absurd hk (Nat.not_lt_zero k)),
    managerValidate_reports.1 [({ hostname := "x".data } : StaticDHCPEntry)] 0 _ _
      rfl (by decide)⟩

end Dhcpmon
